import Mathlib

/-!
Verification development for the nbdkit backend chain machinery:
a shallow embedding of `src/server/backend.c` (chain dispatcher, capability
resolver, data-path wrappers) and of the extent-list bookkeeping
(`nbdkit_extents_new`, `nbdkit_add_extent`, `nbdkit_extents_aligned`).

Machine integers are modelled as `Nat` (for the C unsigned types
`uint32_t`/`uint64_t`) and `Int` (for the C signed types `int`/`int64_t`),
with reductions modulo 2^64 made explicit at the places where the C code
can overflow.  C functions that can abort on a failed `assert` are modelled
as `Option`-valued functions returning `none` at the assertion failure.
-/

namespace Nbdkit

/-- `INT64_MAX` from `<stdint.h>`. -/
def INT64_MAX : Int := 9223372036854775807

/-- 2^64, the modulus of C `uint64_t` arithmetic. -/
def UINT64_MOD : ℕ := 18446744073709551616

/-- Conversion of a C `uint64_t` value to `int64_t` (two's complement wrap,
the gcc/clang behaviour used to build the repository): values below 2^63 are
preserved, larger values are reduced by 2^64. -/
def toInt64 (u : ℕ) : Int :=
  if u % UINT64_MOD < 9223372036854775808 then ((u % UINT64_MOD : ℕ) : Int)
  else ((u % UINT64_MOD : ℕ) : Int) - (UINT64_MOD : Int)

/-- `ERANGE` errno value (Linux). -/
def ERANGE : ℕ := 34

/-- `ENOTSUP` errno value (Linux; `EOPNOTSUPP` has the same value). -/
def ENOTSUP : ℕ := 95

/-- `EOPNOTSUPP` errno value (Linux). -/
def EOPNOTSUPP : ℕ := 95

/-- Cap on the number of extent records per reply
(`#define MAX_EXTENTS (1 * 1024 * 1024)`). -/
def MAX_EXTENTS : ℕ := 1048576

/-- `struct nbdkit_extent`: one `{offset, length, type}` record
(`offset`, `length` are `uint64_t`, `type` is `uint32_t`). -/
structure NbdExtent where
  offset : ℕ
  length : ℕ
  type : ℕ
deriving Repr, DecidableEq

/-- `struct nbdkit_extents`: the appendable extent list.  `records` is the
`extents` vector in order, `start`/`stop` are the `start`/`end` fields
(`stop` because `end` is a Lean keyword), and `next` is the `int64_t`
cursor (`-1` when `nbdkit_add_extent` has never advanced it). -/
structure NbdExtents where
  records : List NbdExtent
  start : ℕ
  stop : ℕ
  next : Int
deriving Repr, DecidableEq

/-- `nbdkit_extents_new (start, end)`: fails (returns NULL with
`errno = ERANGE`) when either endpoint exceeds `INT64_MAX` or
`start > end`; otherwise returns an empty list with `next = -1`. -/
def nbdkit_extents_new (start stop : ℕ) : Option NbdExtents :=
  if (start : Int) > INT64_MAX ∨ (stop : Int) > INT64_MAX then none
  else if start > stop then none
  else some ⟨[], start, stop, -1⟩

/-- Result of `nbdkit_add_extent`: the C return value `r` (0 or -1), the
`errno` it sets on failure (0 when untouched), and the extent list after
the call (the C function mutates `exts` in place). -/
structure AddRes where
  r : Int
  errno : ℕ
  exts : NbdExtents
deriving Repr, DecidableEq

/-- `nbdkit_add_extent (exts, offset, length, type)`.  Mirrors the C body:
contiguity check against `next` (the `int64_t` cursor compared with the
`uint64_t` offset, legal because the check requires `next >= 0`);
unconditional advance of `next` to `offset + length` (a `uint64_t` sum
converted to `int64_t`); then the drop / clip / first-record / coalesce
logic.  The vector append cannot fail in the model (C's realloc-failure
path is out of scope). -/
def nbdkit_add_extent (exts0 : NbdExtents) (offset length type : ℕ) : AddRes :=
  -- Extents must be added in strictly ascending, contiguous order.
  if 0 ≤ exts0.next ∧ exts0.next ≠ (offset : Int) then
    ⟨-1, ERANGE, exts0⟩
  else
    let exts := { exts0 with next := toInt64 (offset + length) }
    -- Ignore zero-length extents.
    if length = 0 then ⟨0, 0, exts⟩
    -- Ignore extents beyond the end of the range, or if list is full.
    else if exts.stop ≤ offset ∨ MAX_EXTENTS ≤ exts.records.length then ⟨0, 0, exts⟩
    else
      -- Shorten extents that overlap the end of the range.
      let length1 := if exts.stop < offset + length then exts.stop - offset else length
      if exts.records = [] then
        -- No existing extents and the new extent is entirely before start.
        if offset + length1 ≤ exts.start then ⟨0, 0, exts⟩
        -- No existing extents and the new extent is after start: plugin bug.
        else if exts.start < offset then ⟨-1, ERANGE, exts⟩
        -- Truncate so the first stored extent starts at start, then add it.
        else ⟨0, 0, { exts with
                      records := [⟨exts.start, length1 - (exts.start - offset), type⟩] }⟩
      else
        match exts.records.getLast? with
        | none => ⟨0, 0, exts⟩  -- unreachable: records ≠ []
        | some last =>
          if last.type = type then
            -- Coalesce with the last extent.
            ⟨0, 0, { exts with
                     records := exts.records.dropLast ++
                       [⟨last.offset, last.length + length1, last.type⟩] }⟩
          else
            -- Add a new extent.
            ⟨0, 0, { exts with records := exts.records ++ [⟨offset, length1, type⟩] }⟩

/-- A sequence of `nbdkit_add_extent` calls, each required to succeed
(return 0); `none` as soon as one fails. -/
def addSeq : NbdExtents → List (ℕ × ℕ × ℕ) → Option NbdExtents
  | e, [] => some e
  | e, (o, l, t) :: rest =>
    let a := nbdkit_add_extent e o l t
    if a.r = 0 then addSeq a.exts rest else none

/-- The end (`offset + length`) of the last record of a list
(0 for an empty list). -/
def lastEnd (l : List NbdExtent) : ℕ :=
  match l.getLast? with
  | none => 0
  | some r => r.offset + r.length

/-- The records are chained contiguously starting at `o` (each record
begins where the previous one ended) and have positive lengths. -/
def chainedFrom : ℕ → List NbdExtent → Bool
  | _, [] => true
  | o, r :: rest =>
    (r.offset == o) && decide (0 < r.length) && chainedFrom (r.offset + r.length) rest

/-- No two adjacent records share a `type`. -/
def noAdjEq : List NbdExtent → Bool
  | [] => true
  | [_] => true
  | a :: b :: rest => (a.type != b.type) && noAdjEq (b :: rest)

/-- Inductive invariant of an extent list under successful
`nbdkit_add_extent` calls whose `offset + length` stays within
`INT64_MAX` (so that the `next` cursor holds the exact sum): the stored
records are contiguous from `start` with positive lengths, adjacent
types differ, the list respects the cap, and — while the cap has not
been reached — the end of the last record is `min next stop`. -/
def ExtInv (e : NbdExtents) : Prop :=
  chainedFrom e.start e.records = true ∧
  noAdjEq e.records = true ∧
  e.records.length ≤ MAX_EXTENTS ∧
  (e.records = [] ∨
    (lastEnd e.records ≤ e.stop ∧ 0 ≤ e.next ∧
      (e.records.length < MAX_EXTENTS → lastEnd e.records = min e.next.toNat e.stop)))

/-! ## Contexts and the capability resolver (`src/server/backend.c`) -/

/-- Capability enumeration `NBDKIT_ZERO_NONE` (= 0). -/
def NBDKIT_ZERO_NONE : Int := 0

/-- Capability enumeration `NBDKIT_ZERO_EMULATE` (= 1). -/
def NBDKIT_ZERO_EMULATE : Int := 1

/-- Capability enumeration `NBDKIT_FUA_NONE` (= 0). -/
def NBDKIT_FUA_NONE : Int := 0

/-- Capability enumeration `NBDKIT_CACHE_NONE` (= 0). -/
def NBDKIT_CACHE_NONE : Int := 0

/-- Capability enumeration `NBDKIT_CACHE_EMULATE` (= 1). -/
def NBDKIT_CACHE_EMULATE : Int := 1

/-- Request flag `NBDKIT_FLAG_FUA = 1<<0`. -/
def NBDKIT_FLAG_FUA : ℕ := 1

/-- Request flag `NBDKIT_FLAG_MAY_TRIM = 1<<1`. -/
def NBDKIT_FLAG_MAY_TRIM : ℕ := 2

/-- Request flag `NBDKIT_FLAG_REQ_ONE = 1<<2`. -/
def NBDKIT_FLAG_REQ_ONE : ℕ := 4

/-- Request flag `NBDKIT_FLAG_FAST_ZERO = 1<<3`. -/
def NBDKIT_FLAG_FAST_ZERO : ℕ := 8

/-- `struct context`: per-connection, per-layer state.  `handle` models
`c->handle != NULL`; the three state booleans model the `HANDLE_OPEN`,
`HANDLE_CONNECTED` and `HANDLE_FAILED` bits of `c->state`; `exportsize`
and the ten capability fields are the caches, `-1` = unknown. -/
structure Context where
  handle : Bool
  stateOpen : Bool
  stateConnected : Bool
  stateFailed : Bool
  exportsize : Int
  can_write : Int
  can_flush : Int
  is_rotational : Int
  can_trim : Int
  can_zero : Int
  can_fast_zero : Int
  can_fua : Int
  can_multi_conn : Int
  can_extents : Int
  can_cache : Int
deriving Repr, DecidableEq

/-- The layer's own callbacks (`b->can_write (c)` etc.).  The spec requires
the answers to be deterministic for a given context, so each capability
callback is modelled as the fixed value it returns for this context. -/
structure Backend where
  can_write : Int
  can_flush : Int
  is_rotational : Int
  can_trim : Int
  can_zero : Int
  can_fast_zero : Int
  can_fua : Int
  can_multi_conn : Int
  can_extents : Int
  can_cache : Int
  get_size : Int
deriving Repr, DecidableEq

/-- Result of a capability query: the returned value `v`, the context after
the call (the C code mutates `c` in place), and whether any layer callback
was invoked during the query. -/
structure QRes where
  v : Int
  ctx : Context
  called : Bool
deriving Repr, DecidableEq

/-- The context produced by `backend_open` (fields set at `backend.c`
lines 254-265) once `backend_prepare` has succeeded: handle present,
`OPEN|CONNECTED` set, every cache unknown except that `can_write` is
forced to 0 for a readonly connection. -/
def initContext (readonly : Bool) : Context :=
  ⟨true, true, true, false, -1, if readonly then 0 else -1,
   -1, -1, -1, -1, -1, -1, -1, -1, -1⟩

/-- `backend_can_write`: cached answer if set, else invoke and cache.
`none` models the failure of `assert (c->handle && (c->state &
HANDLE_CONNECTED))`. -/
def backend_can_write (b : Backend) (c : Context) : Option QRes :=
  if c.handle && c.stateConnected then
    if c.can_write = -1 then
      some ⟨b.can_write, { c with can_write := b.can_write }, true⟩
    else some ⟨c.can_write, c, false⟩
  else none

/-- `backend_can_flush`. -/
def backend_can_flush (b : Backend) (c : Context) : Option QRes :=
  if c.handle && c.stateConnected then
    if c.can_flush = -1 then
      some ⟨b.can_flush, { c with can_flush := b.can_flush }, true⟩
    else some ⟨c.can_flush, c, false⟩
  else none

/-- `backend_is_rotational`. -/
def backend_is_rotational (b : Backend) (c : Context) : Option QRes :=
  if c.handle && c.stateConnected then
    if c.is_rotational = -1 then
      some ⟨b.is_rotational, { c with is_rotational := b.is_rotational }, true⟩
    else some ⟨c.is_rotational, c, false⟩
  else none

/-- `backend_can_trim`: on a cache miss first resolve `backend_can_write`;
if that did not answer 1, cache `can_trim = 0` and return the `can_write`
answer without consulting the layer's own `can_trim`. -/
def backend_can_trim (b : Backend) (c : Context) : Option QRes :=
  if c.handle && c.stateConnected then
    if c.can_trim = -1 then
      match backend_can_write b c with
      | none => none
      | some q =>
        if q.v ≠ 1 then some ⟨q.v, { q.ctx with can_trim := 0 }, q.called⟩
        else some ⟨b.can_trim, { q.ctx with can_trim := b.can_trim }, true⟩
    else some ⟨c.can_trim, c, false⟩
  else none

/-- `backend_can_zero`: like `backend_can_trim` with the forced cache value
`NBDKIT_ZERO_NONE` (the C comment notes it relies on `0 == NBDKIT_ZERO_NONE`). -/
def backend_can_zero (b : Backend) (c : Context) : Option QRes :=
  if c.handle && c.stateConnected then
    if c.can_zero = -1 then
      match backend_can_write b c with
      | none => none
      | some q =>
        if q.v ≠ 1 then some ⟨q.v, { q.ctx with can_zero := NBDKIT_ZERO_NONE }, q.called⟩
        else some ⟨b.can_zero, { q.ctx with can_zero := b.can_zero }, true⟩
    else some ⟨c.can_zero, c, false⟩
  else none

/-- `backend_can_fast_zero`: on a cache miss first resolve
`backend_can_zero`; if that answered below `NBDKIT_ZERO_EMULATE`, cache
`can_fast_zero = 0` and return the `can_zero` answer. -/
def backend_can_fast_zero (b : Backend) (c : Context) : Option QRes :=
  if c.handle && c.stateConnected then
    if c.can_fast_zero = -1 then
      match backend_can_zero b c with
      | none => none
      | some q =>
        if q.v < NBDKIT_ZERO_EMULATE then
          some ⟨q.v, { q.ctx with can_fast_zero := 0 }, q.called⟩
        else some ⟨b.can_fast_zero, { q.ctx with can_fast_zero := b.can_fast_zero }, true⟩
    else some ⟨c.can_fast_zero, c, false⟩
  else none

/-- `backend_can_extents`. -/
def backend_can_extents (b : Backend) (c : Context) : Option QRes :=
  if c.handle && c.stateConnected then
    if c.can_extents = -1 then
      some ⟨b.can_extents, { c with can_extents := b.can_extents }, true⟩
    else some ⟨c.can_extents, c, false⟩
  else none

/-- `backend_can_fua`: like `backend_can_trim` with the forced cache value
`NBDKIT_FUA_NONE`. -/
def backend_can_fua (b : Backend) (c : Context) : Option QRes :=
  if c.handle && c.stateConnected then
    if c.can_fua = -1 then
      match backend_can_write b c with
      | none => none
      | some q =>
        if q.v ≠ 1 then some ⟨q.v, { q.ctx with can_fua := NBDKIT_FUA_NONE }, q.called⟩
        else some ⟨b.can_fua, { q.ctx with can_fua := b.can_fua }, true⟩
    else some ⟨c.can_fua, c, false⟩
  else none

/-- `backend_can_multi_conn`. -/
def backend_can_multi_conn (b : Backend) (c : Context) : Option QRes :=
  if c.handle && c.stateConnected then
    if c.can_multi_conn = -1 then
      some ⟨b.can_multi_conn, { c with can_multi_conn := b.can_multi_conn }, true⟩
    else some ⟨c.can_multi_conn, c, false⟩
  else none

/-- `backend_can_cache`. -/
def backend_can_cache (b : Backend) (c : Context) : Option QRes :=
  if c.handle && c.stateConnected then
    if c.can_cache = -1 then
      some ⟨b.can_cache, { c with can_cache := b.can_cache }, true⟩
    else some ⟨c.can_cache, c, false⟩
  else none

/-- `backend_get_size`: the export size cache (`c->exportsize`, `-1` =
unknown). -/
def backend_get_size (b : Backend) (c : Context) : Option QRes :=
  if c.handle && c.stateConnected then
    if c.exportsize = -1 then
      some ⟨b.get_size, { c with exportsize := b.get_size }, true⟩
    else some ⟨c.exportsize, c, false⟩
  else none

/-- One capability-resolver query performed on a context: the only code
in `backend.c` that writes the capability caches.  `QStep b c c'` holds
when some query takes the context from `c` to `c'`. -/
inductive QStep (b : Backend) : Context → Context → Prop where
  | can_write (c : Context) (q : QRes) :
      backend_can_write b c = some q → QStep b c q.ctx
  | can_flush (c : Context) (q : QRes) :
      backend_can_flush b c = some q → QStep b c q.ctx
  | is_rotational (c : Context) (q : QRes) :
      backend_is_rotational b c = some q → QStep b c q.ctx
  | can_trim (c : Context) (q : QRes) :
      backend_can_trim b c = some q → QStep b c q.ctx
  | can_zero (c : Context) (q : QRes) :
      backend_can_zero b c = some q → QStep b c q.ctx
  | can_fast_zero (c : Context) (q : QRes) :
      backend_can_fast_zero b c = some q → QStep b c q.ctx
  | can_extents (c : Context) (q : QRes) :
      backend_can_extents b c = some q → QStep b c q.ctx
  | can_fua (c : Context) (q : QRes) :
      backend_can_fua b c = some q → QStep b c q.ctx
  | can_multi_conn (c : Context) (q : QRes) :
      backend_can_multi_conn b c = some q → QStep b c q.ctx
  | can_cache (c : Context) (q : QRes) :
      backend_can_cache b c = some q → QStep b c q.ctx
  | get_size (c : Context) (q : QRes) :
      backend_get_size b c = some q → QStep b c q.ctx

/-- Reachability by any sequence of capability queries. -/
inductive QReach (b : Backend) : Context → Context → Prop where
  | refl (c : Context) : QReach b c c
  | step {c c' c'' : Context} :
      QReach b c c' → QStep b c' c'' → QReach b c c''

/-- The coupling invariant on a context's capability caches: the
`can_write` cache is tri-valued, each of `can_trim` / `can_zero` /
`can_fua` is unknown or forced 0 unless `can_write` is 1, and
`can_fast_zero` is unknown or forced 0 unless `can_zero` is at least
EMULATE. -/
def CouplingInv (c : Context) : Prop :=
  (c.can_write = -1 ∨ c.can_write = 0 ∨ c.can_write = 1) ∧
  (c.can_trim = -1 ∨ c.can_trim = 0 ∨ c.can_write = 1) ∧
  (c.can_zero = -1 ∨ c.can_zero = 0 ∨ c.can_write = 1) ∧
  (c.can_fua = -1 ∨ c.can_fua = 0 ∨ c.can_write = 1) ∧
  (c.can_fast_zero = -1 ∨ c.can_fast_zero = 0 ∨ 1 ≤ c.can_zero)

/-! ## Data-path wrappers (`src/server/backend.c` lines 602-784)

Each wrapper's C `assert`s become nested guards returning `none` on
failure; the layer callback is modelled as a function returning the C
result together with the `errno` it stores through the `err`
out-parameter.  The wrappers also model the post-call
`if (r == -1) assert (*err)` checks.  The `assert (c->exportsize <=
INT64_MAX)` inside `backend_valid_range` appears as an explicit guard
at each wrapper's range check. -/

/-- `backend_valid_range`: `count > 0 && offset <= c->exportsize &&
offset + count <= c->exportsize` (the `offset + count` sum is `uint64_t`
arithmetic, hence reduced modulo 2^64). -/
def backend_valid_range (c : Context) (offset count : ℕ) : Bool :=
  decide (0 < count) && decide ((offset : Int) ≤ c.exportsize) &&
    decide ((((offset + count) % UINT64_MOD : ℕ) : Int) ≤ c.exportsize)

/-- Result of a data-path wrapper: the returned value `r` and whether the
layer's own callback for this operation was invoked. -/
structure DRes where
  r : Int
  called : Bool
deriving Repr, DecidableEq

/-- `backend_pread`.  `pread count offset` is the layer's `.pread`
callback, returning `(r, errno)`. -/
def backend_pread (c : Context) (pread : ℕ → ℕ → Int × ℕ)
    (count offset flags : ℕ) : Option DRes :=
  if c.handle && c.stateConnected then
    if c.exportsize ≤ INT64_MAX && backend_valid_range c offset count then
      if flags = 0 then
        let res := pread count offset
        if res.1 = -1 ∧ res.2 = 0 then none  -- assert (*err)
        else some ⟨res.1, true⟩
      else none
    else none
  else none

/-- `backend_pwrite`.  Allowed flags: `NBDKIT_FLAG_FUA` only; a FUA
request additionally asserts `c->can_fua > NBDKIT_FUA_NONE`. -/
def backend_pwrite (c : Context) (pwrite : ℕ → ℕ → Int × ℕ)
    (count offset flags : ℕ) : Option DRes :=
  if c.handle && c.stateConnected then
    if c.can_write = 1 then
      if c.exportsize ≤ INT64_MAX && backend_valid_range c offset count then
        if flags &&& NBDKIT_FLAG_FUA = flags then
          if flags &&& NBDKIT_FLAG_FUA ≠ 0 ∧ ¬ NBDKIT_FUA_NONE < c.can_fua then none
          else
            let res := pwrite count offset
            if res.1 = -1 ∧ res.2 = 0 then none
            else some ⟨res.1, true⟩
        else none
      else none
    else none
  else none

/-- `backend_flush`: no range, flags must be 0, `c->can_flush == 1`. -/
def backend_flush (c : Context) (flush : Unit → Int × ℕ)
    (flags : ℕ) : Option DRes :=
  if c.handle && c.stateConnected then
    if c.can_flush = 1 then
      if flags = 0 then
        let res := flush ()
        if res.1 = -1 ∧ res.2 = 0 then none
        else some ⟨res.1, true⟩
      else none
    else none
  else none

/-- `backend_trim`: requires `can_write == 1` and `can_trim == 1`;
allowed flags: FUA only. -/
def backend_trim (c : Context) (trim : ℕ → ℕ → Int × ℕ)
    (count offset flags : ℕ) : Option DRes :=
  if c.handle && c.stateConnected then
    if c.can_write = 1 then
      if c.can_trim = 1 then
        if c.exportsize ≤ INT64_MAX && backend_valid_range c offset count then
          if flags &&& NBDKIT_FLAG_FUA = flags then
            if flags &&& NBDKIT_FLAG_FUA ≠ 0 ∧ ¬ NBDKIT_FUA_NONE < c.can_fua then none
            else
              let res := trim count offset
              if res.1 = -1 ∧ res.2 = 0 then none
              else some ⟨res.1, true⟩
          else none
        else none
      else none
    else none
  else none

/-- `backend_zero`: requires `can_write == 1` and `can_zero >
NBDKIT_ZERO_NONE`; allowed flags: `MAY_TRIM | FUA | FAST_ZERO`; FUA and
FAST_ZERO have their extra capability asserts; on failure the error must
be set and, unless FAST_ZERO was requested, must not be
`ENOTSUP`/`EOPNOTSUPP`. -/
def backend_zero (c : Context) (zero : ℕ → ℕ → ℕ → Int × ℕ)
    (count offset flags : ℕ) : Option DRes :=
  if c.handle && c.stateConnected then
    if c.can_write = 1 then
      if NBDKIT_ZERO_NONE < c.can_zero then
        if c.exportsize ≤ INT64_MAX && backend_valid_range c offset count then
          if flags &&& (NBDKIT_FLAG_MAY_TRIM + NBDKIT_FLAG_FUA + NBDKIT_FLAG_FAST_ZERO)
              = flags then
            if flags &&& NBDKIT_FLAG_FUA ≠ 0 ∧ ¬ NBDKIT_FUA_NONE < c.can_fua then none
            else if flags &&& NBDKIT_FLAG_FAST_ZERO ≠ 0 ∧ c.can_fast_zero ≠ 1 then none
            else
              let res := zero count offset flags
              if res.1 = -1 ∧ (res.2 = 0 ∨
                  (flags &&& NBDKIT_FLAG_FAST_ZERO = 0 ∧
                    (res.2 = ENOTSUP ∨ res.2 = EOPNOTSUPP))) then none
              else some ⟨res.1, true⟩
          else none
        else none
      else none
    else none
  else none

/-- `backend_extents`: requires `can_extents >= 0`; allowed flags:
`REQ_ONE` only.  With `can_extents == 0` it synthesises the single
all-allocated record `{offset, count, 0}` via `nbdkit_add_extent` without
invoking the layer; otherwise it forwards to the layer's `.extents`
callback (modelled as `(r, errno, mutated list)`). -/
def backend_extents (c : Context)
    (extentsCb : ℕ → ℕ → ℕ → NbdExtents → Int × ℕ × NbdExtents)
    (count offset flags : ℕ) (exts : NbdExtents) : Option (Int × NbdExtents × Bool) :=
  if c.handle && c.stateConnected then
    if 0 ≤ c.can_extents then
      if c.exportsize ≤ INT64_MAX && backend_valid_range c offset count then
        if flags &&& NBDKIT_FLAG_REQ_ONE = flags then
          if c.can_extents = 0 then
            -- By default it is safe to assume the whole range is allocated.
            let a := nbdkit_add_extent exts offset count 0
            some (a.r, a.exts, false)
          else
            let res := extentsCb count offset flags exts
            if res.1 = -1 ∧ res.2.1 = 0 then none
            else some (res.1, res.2.2, true)
        else none
      else none
    else none
  else none

/-- Fuel-indexed helper for `cacheEmulateReads` (structural recursion so
that the definition evaluates in the kernel; calling it with
`fuel = count` is exact because each iteration consumes
`min count M ≥ 1` bytes when `M ≥ 1`). -/
def cacheReadsAux (M : ℕ) : ℕ → ℕ → ℕ → List (ℕ × ℕ)
  | 0, _, _ => []
  | fuel + 1, count, offset =>
    if count = 0 then []
    else (offset, min count M) :: cacheReadsAux M fuel (count - min count M) offset

/-- The sequence of `(offset, size)` pread requests issued by the
`backend_cache` emulation loop (`backend.c` lines 772-777): each request
is for `MIN (count, sizeof buf)` bytes — always at the original `offset`,
which the loop never advances — until `count` is consumed.  `M` is
`MAX_REQUEST_SIZE`, the size of the static sink buffer. -/
def cacheEmulateReads (M count offset : ℕ) : List (ℕ × ℕ) :=
  if M = 0 then []  -- unreachable: the C buffer has positive size
  else cacheReadsAux M count count offset

/-- Fuel-indexed helper for `cacheEmulateLoop`; `fuel = count` is exact,
as in `cacheReadsAux`. -/
def cacheLoopAux (c : Context) (pread : ℕ → ℕ → Int × ℕ) (M : ℕ) :
    ℕ → ℕ → ℕ → ℕ → Option Int
  | 0, count, _, _ => if count = 0 then some 0 else none
  | fuel + 1, count, offset, flags =>
    if count = 0 then some 0
    else
      match backend_pread c pread (min count M) offset flags with
      | none => none
      | some d =>
        if d.r = -1 then some (-1)
        else cacheLoopAux c pread M fuel (count - min count M) offset flags

/-- The `backend_cache` emulation loop itself: issue each pread through
the `backend_pread` wrapper; stop with -1 on the first failure, else
return 0 once `count` is exhausted. -/
def cacheEmulateLoop (c : Context) (pread : ℕ → ℕ → Int × ℕ)
    (M count offset flags : ℕ) : Option Int :=
  if M = 0 then none  -- unreachable: the C buffer has positive size
  else cacheLoopAux c pread M count count offset flags

/-- `backend_cache`: requires `can_cache > NBDKIT_CACHE_NONE` and zero
flags.  With `can_cache == NBDKIT_CACHE_EMULATE` it runs the pread
emulation loop (the `called` flag then records that the layer's own
`.cache` callback was *not* invoked); otherwise it forwards to the
layer's `.cache` callback. -/
def backend_cache (c : Context) (pread : ℕ → ℕ → Int × ℕ)
    (cacheCb : ℕ → ℕ → Int × ℕ) (M count offset flags : ℕ) : Option DRes :=
  if c.handle && c.stateConnected then
    if NBDKIT_CACHE_NONE < c.can_cache then
      if c.exportsize ≤ INT64_MAX && backend_valid_range c offset count then
        if flags = 0 then
          if c.can_cache = NBDKIT_CACHE_EMULATE then
            match cacheEmulateLoop c pread M count offset flags with
            | none => none
            | some r => some ⟨r, false⟩
          else
            let res := cacheCb count offset
            if res.1 = -1 ∧ res.2 = 0 then none
            else some ⟨res.1, true⟩
        else none
      else none
    else none
  else none

/-- `MAX_REQUEST_SIZE`, the size of the emulation sink buffer.  Modelled
from the spec: the protocol's max request size; the header defining the
numeric value (64 MiB) is not under `src/`. -/
def MAX_REQUEST_SIZE : ℕ := 67108864

/-- Checks that a list of `(offset, size)` requests is contiguous starting
at the given offset; returns the end offset reached. -/
def contiguousFrom : ℕ → List (ℕ × ℕ) → Option ℕ
  | o, [] => some o
  | o, (off, len) :: rest => if off = o then contiguousFrom (o + len) rest else none

/-- `backend_pread` as compiled with `NDEBUG` (assertions disabled):
every `assert` in the wrapper — including the range check — is a no-op,
so the body reduces to the layer call.  There is no error-return-and-log
path in the wrapper. -/
def backend_pread_release (_c : Context) (pread : ℕ → ℕ → Int × ℕ)
    (count offset _flags : ℕ) : DRes :=
  ⟨(pread count offset).1, true⟩

/-! ## `nbdkit_extents_aligned` (`src/unnamed/part_001` lines 214-294) -/

/-- `IS_ALIGNED (x, align)` — the power-of-two alignment test
`!(x & (align - 1))`, written as divisibility (equivalent for the
power-of-two alignments the macro supports). -/
def isAligned (x align : ℕ) : Bool := x % align == 0

/-- `ROUND_DOWN (x, align)` — round down to a multiple of `align`
(equal to the C mask form `x & ~(align-1)` for power-of-two `align`). -/
def roundDown (x align : ℕ) : ℕ := x - x % align

/-- `flags & ~NBDKIT_FLAG_REQ_ONE`: clear the REQ_ONE bit. -/
def clearReqOne (flags : ℕ) : ℕ :=
  if flags &&& NBDKIT_FLAG_REQ_ONE ≠ 0 then flags - NBDKIT_FLAG_REQ_ONE else flags

/-- The `while (e->length < align)` merge loop of `nbdkit_extents_aligned`
(lines 251-285).  `e` is the record being grown, `rest` the records after
it in the current vector, `ex` carries the caller's list (for its
`start`/`end` fields, which the vector swap does not touch).  When `rest`
is exhausted a fresh inner query is issued and its vector is swapped in.
`fuel` bounds the number of iterations; the C loop needs at most `align`
iterations whenever every merged record has positive length, so callers
pass `align + 1` and a run that exceeds the bound (possible only for an
inner layer that keeps producing zero-length records, where the C code
does not terminate) is modelled as `none`.  `none` also models the C
undefined behaviour of reading `ptr[0]` of an empty fresh query and the
`assert (e2->offset == e->offset + e->length)`. -/
def mergeLoop (F : ℕ → ℕ → ℕ → NbdExtents → Int × ℕ × NbdExtents)
    (offset flags align : ℕ) (ex : NbdExtents) :
    NbdExtent → List NbdExtent → ℕ → Option (Int × ℕ × NbdExtents)
  | _, _, 0 => none
  | e, rest, fuel + 1 =>
    if e.length < align then
      match rest with
      | e1 :: rest' =>
        -- coalesce with the following record, removing it from the vector
        mergeLoop F offset flags align ex
          ⟨e.offset, e.length + e1.length, e.type &&& e1.type⟩ rest' fuel
      | [] =>
        -- the plugin needs a fresh extents object for a further query
        match nbdkit_extents_new (e.offset + e.length) (offset + align) with
        | none => some (-1, ERANGE, { ex with records := [e] })
        | some ex2 =>
          let res := F (align - e.length) (offset + e.length) (clearReqOne flags) ex2
          if res.1 = -1 then some (-1, res.2.1, { ex with records := [e] })
          else
            match res.2.2.records with
            | [] => none
            | e2 :: rest2 =>
              if e2.offset = e.offset + e.length then
                mergeLoop F offset flags align ex
                  ⟨e.offset, e2.length + e.length, e2.type &&& e.type⟩ rest2 fuel
              else none
    else
      some (0, 0, { ex with records := [⟨e.offset, align, e.type⟩],
                            next := toInt64 (e.offset + align) })

/-- The scan of `nbdkit_extents_aligned` (lines 229-291) over the records
of the initial query: skip aligned records (`acc` is the prefix already
scanned, so `ex.records = acc ++ rest`); at the first unaligned record
either truncate-and-return-early (when it extends past `offset + align`)
or, asserting it is the first record, run the merge loop. -/
def alignScan (F : ℕ → ℕ → ℕ → NbdExtents → Int × ℕ × NbdExtents)
    (offset flags align : ℕ) (ex : NbdExtents) :
    List NbdExtent → List NbdExtent → Option (Int × ℕ × NbdExtents)
  | _, [] => some (0, 0, ex)  -- every record was aligned: return unchanged
  | acc, e :: rest =>
    if isAligned e.length align then alignScan F offset flags align ex (acc ++ [e]) rest
    else if offset + align < e.offset + e.length then
      -- the unalignment is past align: truncate and return early
      let len := roundDown e.length align
      some (0, 0, { ex with
        records := acc ++ (if len = 0 then [] else [⟨e.offset, len, e.type⟩]),
        next := toInt64 (e.offset + len) })
    else if acc = [] then  -- assert (i == 0)
      mergeLoop F offset flags align ex e rest (align + 1)
    else none

/-- `nbdkit_extents_aligned`: entry assert
`IS_ALIGNED (count | offset, align)`, initial inner query, then the scan. -/
def nbdkit_extents_aligned (F : ℕ → ℕ → ℕ → NbdExtents → Int × ℕ × NbdExtents)
    (count offset flags align : ℕ) (exts : NbdExtents) :
    Option (Int × ℕ × NbdExtents) :=
  if isAligned (count ||| offset) align then
    let res := F count offset flags exts
    if res.1 = -1 then some (-1, res.2.1, res.2.2)
    else alignScan F offset flags align res.2.2 [] res.2.2.records
  else none

/-! ## `backend_finalize` (`src/server/backend.c` lines 324-353) -/

/-- One layer of a chain for finalization: the result its `.finalize`
callback would return, and its context. -/
structure FinLayer where
  fin : Int
  ctx : Context
deriving Repr, DecidableEq

/-- `backend_finalize`, outer-to-inner over the chain (the inner recursion
via `get_context (conn, b->next)`; an empty tail models the innermost
layer or a filter that did not open its backend).  Returns the C result,
the chain afterwards, and whether any `.finalize` callback was invoked.
`none` models the failure of `assert (c->state & HANDLE_OPEN &&
c->handle)`. -/
def backend_finalize : List FinLayer → Option (Int × List FinLayer × Bool)
  | [] => some (0, [], false)
  | l :: rest =>
    -- Once finalize fails, we can do nothing further on this connection.
    if l.ctx.stateFailed then some (-1, l :: rest, false)
    else if l.ctx.stateConnected then
      if l.ctx.stateOpen && l.ctx.handle then
        if l.fin = -1 then
          some (-1, { l with ctx := { l.ctx with stateFailed := true } } :: rest, true)
        else
          match backend_finalize rest with
          | none => none
          | some (r, rest', _) => some (r, l :: rest', true)
      else none
    else
      match backend_finalize rest with
      | none => none
      | some (r, rest', called) => some (r, l :: rest', called)

/-! ## Theorems -/

/-- C8: for every connected context with `can_extents == 0` and every valid
`(offset, count)`, `backend_extents` returns success having added exactly
one record `{offset, count, type=0}` to the (freshly created) extent list,
without invoking the layer's extents callback. -/
theorem backend_extents_no_extents_fallback
    (c : Context) (cb : ℕ → ℕ → ℕ → NbdExtents → Int × ℕ × NbdExtents)
    (count offset flags : ℕ) (exts : NbdExtents)
    (hh : c.handle = true) (hcon : c.stateConnected = true)
    (hce : c.can_extents = 0)
    (hsz : c.exportsize ≤ INT64_MAX)
    (h0 : 0 < count)
    (hoc : ((offset + count : ℕ) : Int) ≤ c.exportsize)
    (hflags : flags &&& NBDKIT_FLAG_REQ_ONE = flags)
    (hnew : nbdkit_extents_new offset (offset + count) = some exts) :
    ∃ exts1,
      backend_extents c cb count offset flags exts = some (0, exts1, false) ∧
      exts1.records = [⟨offset, count, 0⟩] := by
  have h1 : ((offset + count : ℕ) : Int) ≤ INT64_MAX := le_trans hoc hsz
  have h1n : offset + count ≤ 9223372036854775807 := by
    simp only [INT64_MAX] at h1
    exact_mod_cast h1
  have hmod : (offset + count) % UINT64_MOD = offset + count := by
    apply Nat.mod_eq_of_lt
    simp only [UINT64_MOD]
    omega
  have ho : (offset : Int) ≤ c.exportsize := by
    refine le_trans ?_ hoc
    exact_mod_cast Nat.le_add_right offset count
  have hexts : exts = ⟨[], offset, offset + count, -1⟩ := by
    unfold nbdkit_extents_new at hnew
    rw [if_neg, if_neg] at hnew
    · exact (Option.some_inj.mp hnew).symm
    · omega
    · push_neg
      refine ⟨le_trans ?_ h1, h1⟩
      exact_mod_cast Nat.le_add_right offset count
  subst hexts
  have hadd : nbdkit_add_extent ⟨[], offset, offset + count, -1⟩ offset count 0 =
      ⟨0, 0, ⟨[⟨offset, count, 0⟩], offset, offset + count, toInt64 (offset + count)⟩⟩ := by
    unfold nbdkit_add_extent
    split_ifs with g1 g2 g3 g4 g5 g6 <;> simp_all [MAX_EXTENTS]
  have hguard : (decide (c.exportsize ≤ INT64_MAX) && backend_valid_range c offset count)
      = true := by
    simp only [backend_valid_range, hmod, Bool.and_eq_true, decide_eq_true_eq]
    exact ⟨hsz, ⟨h0, ho⟩, hoc⟩
  refine ⟨⟨[⟨offset, count, 0⟩], offset, offset + count, toInt64 (offset + count)⟩, ?_, rfl⟩
  unfold backend_extents
  rw [hh, hcon]
  simp only [Bool.and_self, if_true, hce, le_refl, if_pos, hguard, hflags, if_pos rfl, hadd]

/-- Witness for C8 at the spec's S3 scenario: a context with
`can_extents = 0` and a query over `[4096, 8192)` yields the single
record `{4096, 4096, 0}`. -/
theorem backend_extents_no_extents_fallback_witness :
    ∃ exts1,
      backend_extents ⟨true, true, true, false, 8192, -1, -1, -1, -1, -1, -1, -1, -1, 0, -1⟩
        (fun _ _ _ e => (0, 0, e)) 4096 4096 0 ⟨[], 4096, 8192, -1⟩ =
        some (0, exts1, false) ∧
      exts1.records = [⟨4096, 4096, 0⟩] :=
  backend_extents_no_extents_fallback
    ⟨true, true, true, false, 8192, -1, -1, -1, -1, -1, -1, -1, -1, 0, -1⟩
    (fun _ _ _ e => (0, 0, e)) 4096 4096 0 ⟨[], 4096, 8192, -1⟩
    rfl rfl rfl (by decide) (by decide) (by decide) (by decide) (by decide)

/-- C2 (amended): with assertions enabled, every data-path operation
taking a range (`pread`, `pwrite`, `trim`, `zero`, `extents`, `cache`;
`flush` takes no range) rejects — by assertion failure, before invoking
the layer's callback — any call whose range is invalid: `count == 0`,
`offset > exportsize`, or `offset + count > exportsize`. -/
theorem datapath_invalid_range_rejected
    (c : Context) (preadF pwriteF trimF cacheF : ℕ → ℕ → Int × ℕ)
    (zeroF : ℕ → ℕ → ℕ → Int × ℕ)
    (extCb : ℕ → ℕ → ℕ → NbdExtents → Int × ℕ × NbdExtents)
    (M count offset flags : ℕ) (exts : NbdExtents)
    (hinv : count = 0 ∨ c.exportsize < (offset : Int) ∨
      c.exportsize < ((((offset + count) % UINT64_MOD : ℕ)) : Int)) :
    backend_pread c preadF count offset flags = none ∧
    backend_pwrite c pwriteF count offset flags = none ∧
    backend_trim c trimF count offset flags = none ∧
    backend_zero c zeroF count offset flags = none ∧
    backend_extents c extCb count offset flags exts = none ∧
    backend_cache c preadF cacheF M count offset flags = none := by
  have hvr : backend_valid_range c offset count = false := by
    simp only [backend_valid_range, Bool.and_eq_false_iff, decide_eq_false_iff_not, not_lt,
      not_le]
    rcases hinv with h | h | h
    · left
      left
      omega
    · left
      right
      exact h
    · right
      exact h
  refine ⟨?_, ?_, ?_, ?_, ?_, ?_⟩
  · unfold backend_pread
    split_ifs <;> simp_all
  · unfold backend_pwrite
    split_ifs <;> simp_all
  · unfold backend_trim
    split_ifs <;> simp_all
  · unfold backend_zero
    split_ifs <;> simp_all
  · unfold backend_extents
    split_ifs <;> simp_all
  · unfold backend_cache
    split_ifs <;> simp_all

/-- Witness for C2: a zero-length pread (and every other ranged
operation) on a connected writable context of size 16 is rejected. -/
theorem datapath_invalid_range_rejected_witness :
    backend_pread ⟨true, true, true, false, 16, 1, 1, -1, 1, 1, 1, 1, -1, 1, 1⟩
      (fun _ _ => (0, 0)) 0 0 0 = none ∧
    backend_pwrite ⟨true, true, true, false, 16, 1, 1, -1, 1, 1, 1, 1, -1, 1, 1⟩
      (fun _ _ => (0, 0)) 0 0 0 = none ∧
    backend_trim ⟨true, true, true, false, 16, 1, 1, -1, 1, 1, 1, 1, -1, 1, 1⟩
      (fun _ _ => (0, 0)) 0 0 0 = none ∧
    backend_zero ⟨true, true, true, false, 16, 1, 1, -1, 1, 1, 1, 1, -1, 1, 1⟩
      (fun _ _ _ => (0, 0)) 0 0 0 = none ∧
    backend_extents ⟨true, true, true, false, 16, 1, 1, -1, 1, 1, 1, 1, -1, 1, 1⟩
      (fun _ _ _ e => (0, 0, e)) 0 0 0 ⟨[], 0, 16, -1⟩ = none ∧
    backend_cache ⟨true, true, true, false, 16, 1, 1, -1, 1, 1, 1, 1, -1, 1, 1⟩
      (fun _ _ => (0, 0)) (fun _ _ => (0, 0)) 8 0 0 0 = none :=
  datapath_invalid_range_rejected
    ⟨true, true, true, false, 16, 1, 1, -1, 1, 1, 1, 1, -1, 1, 1⟩
    (fun _ _ => (0, 0)) (fun _ _ => (0, 0)) (fun _ _ => (0, 0)) (fun _ _ => (0, 0))
    (fun _ _ _ => (0, 0)) (fun _ _ _ e => (0, 0, e)) 8 0 0 0 ⟨[], 0, 16, -1⟩
    (Or.inl rfl)

/-- C2 counterexample: the claim's release-build clause fails on the code.
With assertions compiled out (`NDEBUG`) the wrapper has no error-return
path at all: a `count == 0` pread is passed straight to the layer's
callback (`called = true`) and returns the layer's result 0, not an
error. -/
theorem backend_pread_release_invokes_layer_counterexample :
    backend_pread_release ⟨true, true, true, false, 16, 1, -1, -1, -1, -1, -1, -1, -1, -1, -1⟩
      (fun _ _ => (0, 0)) 0 0 0 = ⟨0, true⟩ := rfl

theorem lastEnd_concat (l : List NbdExtent) (r : NbdExtent) :
    lastEnd (l ++ [r]) = r.offset + r.length := by
  unfold lastEnd
  rw [List.getLast?_concat]

theorem lastEnd_cons (a : NbdExtent) (l : List NbdExtent) (h : l ≠ []) :
    lastEnd (a :: l) = lastEnd l := by
  rcases l with _ | ⟨b, l'⟩
  · exact absurd rfl h
  · unfold lastEnd
    rw [List.getLast?_cons_cons]

theorem chainedFrom_singleton (s : ℕ) (r : NbdExtent) (ho : r.offset = s)
    (hp : 0 < r.length) : chainedFrom s [r] = true := by
  simp [chainedFrom, ho, hp]

theorem chainedFrom_concat (s : ℕ) (l : List NbdExtent) (r : NbdExtent)
    (h : chainedFrom s l = true) (hne : l ≠ []) (ho : r.offset = lastEnd l)
    (hp : 0 < r.length) :
    chainedFrom s (l ++ [r]) = true := by
  induction l generalizing s with
  | nil => exact absurd rfl hne
  | cons a rest ih =>
    simp only [chainedFrom, Bool.and_eq_true, beq_iff_eq, decide_eq_true_eq] at h
    simp only [List.cons_append, chainedFrom, Bool.and_eq_true, beq_iff_eq, decide_eq_true_eq]
    refine ⟨⟨h.1.1, h.1.2⟩, ?_⟩
    rcases rest with _ | ⟨b, rest'⟩
    · apply chainedFrom_singleton
      · rw [ho]
        unfold lastEnd
        simp
      · exact hp
    · refine ih _ h.2 (by simp) ?_
      rw [ho, lastEnd_cons _ _ (by simp)]

theorem chainedFrom_extend_last (s : ℕ) (init : List NbdExtent) (last : NbdExtent)
    (d : ℕ) (h : chainedFrom s (init ++ [last]) = true) :
    chainedFrom s (init ++ [⟨last.offset, last.length + d, last.type⟩]) = true := by
  induction init generalizing s with
  | nil =>
    simp only [List.nil_append, chainedFrom, Bool.and_eq_true, beq_iff_eq,
      decide_eq_true_eq] at h ⊢
    exact ⟨⟨h.1.1, by omega⟩, trivial⟩
  | cons a rest ih =>
    simp only [List.cons_append, chainedFrom, Bool.and_eq_true, beq_iff_eq,
      decide_eq_true_eq] at h ⊢
    exact ⟨h.1, ih _ h.2⟩

theorem noAdjEq_concat (l : List NbdExtent) (last r : NbdExtent)
    (h : noAdjEq l = true) (hl : l.getLast? = some last) (ht : last.type ≠ r.type) :
    noAdjEq (l ++ [r]) = true := by
  induction l with
  | nil => simp at hl
  | cons a rest ih =>
    rcases rest with _ | ⟨b, rest'⟩
    · simp only [List.getLast?_singleton, Option.some_inj] at hl
      subst hl
      simp only [List.cons_append, List.nil_append, noAdjEq, Bool.and_eq_true, bne_iff_ne]
      exact ⟨ht, trivial⟩
    · simp only [noAdjEq, Bool.and_eq_true, bne_iff_ne] at h
      have hl' : (b :: rest').getLast? = some last := by
        rw [List.getLast?_cons_cons] at hl
        exact hl
      simp only [List.cons_append, noAdjEq, Bool.and_eq_true, bne_iff_ne]
      exact ⟨h.1, ih h.2 hl'⟩

theorem noAdjEq_set_last (init : List NbdExtent) (last : NbdExtent) (o len : ℕ)
    (h : noAdjEq (init ++ [last]) = true) :
    noAdjEq (init ++ [⟨o, len, last.type⟩]) = true := by
  induction init with
  | nil => simp [noAdjEq]
  | cons a rest ih =>
    rcases rest with _ | ⟨b, rest'⟩
    · simp only [List.cons_append, List.nil_append, noAdjEq, Bool.and_eq_true,
        bne_iff_ne] at h ⊢
      exact ⟨h.1, trivial⟩
    · simp only [List.cons_append, noAdjEq, Bool.and_eq_true, bne_iff_ne] at h ⊢
      exact ⟨h.1, ih h.2⟩

theorem chainedFrom_get (s : ℕ) (l : List NbdExtent) (h : chainedFrom s l = true) :
    ∀ i (h1 : i + 1 < l.length) (h0 : i < l.length),
      (l.get ⟨i + 1, h1⟩).offset = (l.get ⟨i, h0⟩).offset + (l.get ⟨i, h0⟩).length := by
  induction l generalizing s with
  | nil => intro i h1 h0; simp at h1
  | cons a rest ih =>
    intro i h1 h0
    simp only [chainedFrom, Bool.and_eq_true, beq_iff_eq, decide_eq_true_eq] at h
    rcases i with _ | j
    · rcases rest with _ | ⟨b, rest'⟩
      · simp at h1
      · simp only [List.get]
        simp only [chainedFrom, Bool.and_eq_true, beq_iff_eq, decide_eq_true_eq] at h
        exact h.2.1.1
    · simp only [List.get]
      exact ih _ h.2 j (Nat.lt_of_succ_lt_succ h1) (Nat.lt_of_succ_lt_succ h0)

theorem chainedFrom_mem_pos (s : ℕ) (l : List NbdExtent) (h : chainedFrom s l = true) :
    ∀ r ∈ l, 0 < r.length := by
  induction l generalizing s with
  | nil => intro r hr; simp at hr
  | cons a rest ih =>
    simp only [chainedFrom, Bool.and_eq_true, beq_iff_eq, decide_eq_true_eq] at h
    intro r hr
    rcases List.mem_cons.mp hr with h' | h'
    · subst h'; exact h.1.2
    · exact ih _ h.2 r h'

theorem chainedFrom_mem_lb (s : ℕ) (l : List NbdExtent) (h : chainedFrom s l = true) :
    ∀ r ∈ l, s ≤ r.offset := by
  induction l generalizing s with
  | nil => intro r hr; simp at hr
  | cons a rest ih =>
    simp only [chainedFrom, Bool.and_eq_true, beq_iff_eq, decide_eq_true_eq] at h
    intro r hr
    rcases List.mem_cons.mp hr with h' | h'
    · subst h'; omega
    · have := ih _ h.2 r h'
      omega

theorem chainedFrom_start_le_lastEnd (s : ℕ) (l : List NbdExtent)
    (h : chainedFrom s l = true) (hne : l ≠ []) : s ≤ lastEnd l := by
  induction l generalizing s with
  | nil => exact absurd rfl hne
  | cons a rest ih =>
    simp only [chainedFrom, Bool.and_eq_true, beq_iff_eq, decide_eq_true_eq] at h
    rcases rest with _ | ⟨b, rest'⟩
    · unfold lastEnd
      simp only [List.getLast?_singleton]
      omega
    · rw [lastEnd_cons _ _ (by simp)]
      have := ih _ h.2 (by simp)
      omega

theorem chainedFrom_mem_ub (s : ℕ) (l : List NbdExtent) (h : chainedFrom s l = true) :
    ∀ r ∈ l, r.offset + r.length ≤ lastEnd l := by
  induction l generalizing s with
  | nil => intro r hr; simp at hr
  | cons a rest ih =>
    simp only [chainedFrom, Bool.and_eq_true, beq_iff_eq, decide_eq_true_eq] at h
    intro r hr
    rcases rest with _ | ⟨b, rest'⟩
    · rcases List.mem_singleton.mp hr with rfl
      unfold lastEnd
      simp only [List.getLast?_singleton]
      omega
    · rw [lastEnd_cons _ _ (by simp)]
      rcases List.mem_cons.mp hr with h' | h'
      · subst h'
        exact chainedFrom_start_le_lastEnd _ _ h.2 (by simp)
      · exact ih _ h.2 r h'

theorem noAdjEq_get (l : List NbdExtent) (h : noAdjEq l = true) :
    ∀ i (h1 : i + 1 < l.length) (h0 : i < l.length),
      (l.get ⟨i, h0⟩).type ≠ (l.get ⟨i + 1, h1⟩).type := by
  induction l with
  | nil => intro i h1 h0; simp at h1
  | cons a rest ih =>
    intro i h1 h0
    rcases rest with _ | ⟨b, rest'⟩
    · simp at h1
    · simp only [noAdjEq, Bool.and_eq_true, bne_iff_ne] at h
      rcases i with _ | j
      · simpa using h.1
      · simp only [List.get]
        exact ih h.2 j (Nat.lt_of_succ_lt_succ h1) (Nat.lt_of_succ_lt_succ h0)


/-- Helper: `toInt64` is the identity on values up to `INT64_MAX`. -/
theorem toInt64_small (u : ℕ) (h : u ≤ 9223372036854775807) :
    toInt64 u = (u : Int) := by
  unfold toInt64 UINT64_MOD
  rw [Nat.mod_eq_of_lt (by omega), if_pos (by omega)]

/-- Helper: `lastEnd` of a one-record list. -/
theorem lastEnd_singleton (r : NbdExtent) : lastEnd [r] = r.offset + r.length := by
  unfold lastEnd
  simp

/-- Helper: the invariant `ExtInv` is preserved by every successful
`nbdkit_add_extent` call whose `offset + length` does not exceed
`INT64_MAX`. -/
theorem extInv_add (e : NbdExtents) (o l t : ℕ)
    (hinv : ExtInv e) (hle : o + l ≤ 9223372036854775807)
    (hr : (nbdkit_add_extent e o l t).r = 0) :
    ExtInv (nbdkit_add_extent e o l t).exts := by
  have hto : toInt64 (o + l) = ((o + l : ℕ) : Int) := toInt64_small _ hle
  obtain ⟨hch, hadj, hlen, hrest⟩ := hinv
  unfold nbdkit_add_extent at hr ⊢
  by_cases hc : 0 ≤ e.next ∧ e.next ≠ (o : Int)
  · rw [if_pos hc] at hr
    simp at hr
  · rw [if_neg hc] at hr ⊢
    push_neg at hc
    by_cases h0 : l = 0
    · rw [if_pos h0] at hr ⊢
      simp only [ExtInv]
      refine ⟨hch, hadj, hlen, ?_⟩
      rcases hrest with hnil | ⟨h1, h2, h3⟩
      · left
        exact hnil
      · right
        have hno : e.next = (o : Int) := hc h2
        rw [hto]
        refine ⟨h1, Int.ofNat_nonneg _, fun hlt => ?_⟩
        have h4 := h3 hlt
        rw [hno] at h4
        simp only [Int.toNat_natCast] at h4 ⊢
        omega
    · rw [if_neg h0] at hr ⊢
      by_cases hdrop : e.stop ≤ o ∨ MAX_EXTENTS ≤ e.records.length
      · rw [if_pos hdrop] at hr ⊢
        simp only [ExtInv]
        refine ⟨hch, hadj, hlen, ?_⟩
        rcases hrest with hnil | ⟨h1, h2, h3⟩
        · left
          exact hnil
        · right
          have hno : e.next = (o : Int) := hc h2
          rw [hto]
          refine ⟨h1, Int.ofNat_nonneg _, fun hlt => ?_⟩
          have h4 := h3 hlt
          rw [hno] at h4
          simp only [Int.toNat_natCast] at h4 ⊢
          rcases hdrop with hstop | hmax
          · omega
          · omega
      · rw [if_neg hdrop] at hr ⊢
        push_neg at hdrop
        by_cases hnil : e.records = []
        · rw [if_pos hnil] at hr ⊢
          by_cases hbefore : o + (if e.stop < o + l then e.stop - o else l) ≤ e.start
          · rw [if_pos hbefore] at hr ⊢
            simp only [ExtInv]
            exact ⟨hch, hadj, hlen, Or.inl hnil⟩
          · rw [if_neg hbefore] at hr ⊢
            by_cases hafter : e.start < o
            · rw [if_pos hafter] at hr
              simp at hr
            · rw [if_neg hafter] at hr ⊢
              push_neg at hbefore hafter
              simp only [ExtInv]
              refine ⟨?_, ?_, ?_, ?_⟩
              · apply chainedFrom_singleton
                · rfl
                · simp only []
                  split_ifs at hbefore ⊢ <;> omega
              · simp [noAdjEq]
              · simp [MAX_EXTENTS]
              · right
                rw [lastEnd_singleton, hto]
                simp only []
                refine ⟨?_, Int.ofNat_nonneg _, fun _ => ?_⟩
                · split_ifs at hbefore ⊢ <;> omega
                · simp only [Int.toNat_natCast]
                  split_ifs at hbefore ⊢ <;> omega
        · rw [if_neg hnil] at hr ⊢
          have hrest2 : lastEnd e.records ≤ e.stop ∧ 0 ≤ e.next ∧
              (e.records.length < MAX_EXTENTS →
                lastEnd e.records = min e.next.toNat e.stop) := by
            rcases hrest with h | h
            · exact absurd h hnil
            · exact h
          obtain ⟨h1, h2, h3⟩ := hrest2
          have hno : e.next = (o : Int) := hc h2
          have h4 := h3 hdrop.2
          rw [hno] at h4
          simp only [Int.toNat_natCast] at h4
          have hoend : lastEnd e.records = o := by omega
          rcases hgl : e.records.getLast? with _ | last
          · exact absurd (List.getLast?_eq_none_iff.mp hgl) hnil
          · simp only [] at hr ⊢
            have hsplit : e.records.dropLast ++ [last] = e.records := by
              have h5 := List.getLast?_eq_getLast_of_ne_nil hnil
              rw [hgl] at h5
              rw [Option.some_inj.mp h5]
              exact List.dropLast_append_getLast hnil
            have hlast : last.offset + last.length = o := by
              unfold lastEnd at hoend
              rw [hgl] at hoend
              exact hoend
            by_cases hty : last.type = t
            · rw [if_pos hty]
              simp only [ExtInv]
              refine ⟨?_, ?_, ?_, ?_⟩
              · exact chainedFrom_extend_last e.start e.records.dropLast last _
                  (by rw [hsplit]; exact hch)
              · exact noAdjEq_set_last e.records.dropLast last _ _
                  (by rw [hsplit]; exact hadj)
              · rw [List.length_append, List.length_dropLast]
                simp only [List.length_singleton]
                omega
              · right
                rw [lastEnd_concat, hto]
                simp only []
                refine ⟨?_, Int.ofNat_nonneg _, fun _ => ?_⟩
                · split_ifs <;> omega
                · simp only [Int.toNat_natCast]
                  split_ifs <;> omega
            · rw [if_neg hty]
              simp only [ExtInv]
              refine ⟨?_, ?_, ?_, ?_⟩
              · apply chainedFrom_concat e.start e.records _ hch hnil
                · exact hoend.symm
                · simp only []
                  split_ifs <;> omega
              · exact noAdjEq_concat e.records last _ hadj hgl hty
              · rw [List.length_append]
                simp only [List.length_singleton]
                omega
              · right
                rw [lastEnd_concat, hto]
                simp only []
                refine ⟨?_, Int.ofNat_nonneg _, fun _ => ?_⟩
                · split_ifs <;> omega
                · simp only [Int.toNat_natCast]
                  split_ifs <;> omega

/-- Helper: `nbdkit_add_extent` never changes the `start`/`end` range of
the list. -/
theorem add_extent_range_const (e : NbdExtents) (o l t : ℕ) :
    (nbdkit_add_extent e o l t).exts.start = e.start ∧
    (nbdkit_add_extent e o l t).exts.stop = e.stop := by
  unfold nbdkit_add_extent
  simp only []
  cases hgl : e.records.getLast? <;> simp only [] <;> split_ifs <;> exact ⟨rfl, rfl⟩

/-- Helper: `ExtInv` (plus range preservation) for a whole sequence of
successful `nbdkit_add_extent` calls. -/
theorem extInv_addSeq (calls : List (ℕ × ℕ × ℕ)) (e e' : NbdExtents)
    (hinv : ExtInv e)
    (hcalls : ∀ x ∈ calls, x.1 + x.2.1 ≤ 9223372036854775807)
    (hseq : addSeq e calls = some e') :
    ExtInv e' ∧ e'.start = e.start ∧ e'.stop = e.stop := by
  induction calls generalizing e with
  | nil =>
    simp only [addSeq, Option.some_inj] at hseq
    subst hseq
    exact ⟨hinv, rfl, rfl⟩
  | cons x rest ih =>
    obtain ⟨o, l, t⟩ := x
    simp only [addSeq] at hseq
    split_ifs at hseq with hzero
    · have hx : o + l ≤ 9223372036854775807 := hcalls (o, l, t) (List.mem_cons_self _ _)
      have hinv' := extInv_add e o l t hinv hx hzero
      have hrange := add_extent_range_const e o l t
      obtain ⟨h1, h2, h3⟩ := ih _ hinv' (fun y hy => hcalls y (List.mem_cons_of_mem _ hy)) hseq
      exact ⟨h1, h2.trans hrange.1, h3.trans hrange.2⟩

/-- C4 (amended): for every list created over `[start, end)` and every
sequence of successful `nbdkit_add_extent` calls in which each call's
`offset + length` stays within `INT64_MAX` (larger sums overflow the
`int64_t` `next` cursor and defeat the contiguity tracking), the stored
records are strictly ascending and exactly contiguous, lie within
`[start, end)`, no two adjacent records share a type, and the count never
exceeds `MAX_EXTENTS`. -/
theorem extent_list_invariants (start stop : ℕ) (e0 e : NbdExtents)
    (calls : List (ℕ × ℕ × ℕ))
    (hnew : nbdkit_extents_new start stop = some e0)
    (hcalls : ∀ x ∈ calls, x.1 + x.2.1 ≤ 9223372036854775807)
    (hseq : addSeq e0 calls = some e) :
    (∀ i (h1 : i + 1 < e.records.length) (h0 : i < e.records.length),
      (e.records.get ⟨i + 1, h1⟩).offset =
        (e.records.get ⟨i, h0⟩).offset + (e.records.get ⟨i, h0⟩).length ∧
      (e.records.get ⟨i, h0⟩).offset < (e.records.get ⟨i + 1, h1⟩).offset ∧
      (e.records.get ⟨i, h0⟩).type ≠ (e.records.get ⟨i + 1, h1⟩).type) ∧
    (∀ r ∈ e.records, start ≤ r.offset ∧ r.offset + r.length ≤ stop ∧ 0 < r.length) ∧
    e.records.length ≤ MAX_EXTENTS := by
  have he0 : e0 = ⟨[], start, stop, -1⟩ := by
    unfold nbdkit_extents_new at hnew
    split_ifs at hnew
    exact (Option.some_inj.mp hnew).symm
  subst he0
  have hinv0 : ExtInv ⟨[], start, stop, -1⟩ := by
    refine ⟨rfl, rfl, by simp [MAX_EXTENTS], Or.inl rfl⟩
  obtain ⟨⟨hch, hadj, hlen, hrest⟩, hstart, hstop⟩ :=
    extInv_addSeq calls _ e hinv0 hcalls hseq
  simp only [] at hstart hstop
  subst hstart
  subst hstop
  refine ⟨?_, ?_, hlen⟩
  · intro i h1 h0
    refine ⟨chainedFrom_get _ _ hch i h1 h0, ?_, noAdjEq_get _ hadj i h1 h0⟩
    have hcont := chainedFrom_get _ _ hch i h1 h0
    have hpos := chainedFrom_mem_pos _ _ hch (e.records.get ⟨i, h0⟩) (e.records.get_mem _ _)
    omega
  · intro r hr
    have hlb := chainedFrom_mem_lb _ _ hch r hr
    have hpos := chainedFrom_mem_pos _ _ hch r hr
    have hub := chainedFrom_mem_ub _ _ hch r hr
    have hstop' : lastEnd e.records ≤ e.stop := by
      rcases hrest with h | h
      · rw [h] at hr
        simp at hr
      · exact h.1
    exact ⟨hlb, by omega, hpos⟩

/-- Witness for C4: the spec's S4 scenario — range `[0, 100)`,
adding `(0, 60, 1)` then `(60, 40, 1)` coalesces into `{0, 100, 1}`, and
the invariants hold for the result. -/
theorem extent_list_invariants_witness :
    (∀ r ∈ (⟨[⟨0, 100, 1⟩], 0, 100, 100⟩ : NbdExtents).records,
      0 ≤ r.offset ∧ r.offset + r.length ≤ 100 ∧ 0 < r.length) ∧
    addSeq ⟨[], 0, 100, -1⟩ [(0, 60, 1), (60, 40, 1)] =
      some ⟨[⟨0, 100, 1⟩], 0, 100, 100⟩ := by
  have h := extent_list_invariants 0 100 ⟨[], 0, 100, -1⟩
    ⟨[⟨0, 100, 1⟩], 0, 100, 100⟩ [(0, 60, 1), (60, 40, 1)]
    (by decide) (by decide) (by decide)
  exact ⟨h.2.1, by decide⟩

/-- C4 counterexample: with a call whose `offset + length` overflows
`int64_t`, the claim as stated fails.  On range `[0, 100)` the calls
`(0, 2^64 - 1, 1)` then `(50, 10, 2)` both succeed — the first clips to
`{0, 100, 1}` but stores `next = -1` (the `uint64_t` sum `2^64 - 1`
converted to `int64_t`), which reads as "unset", so the second,
overlapping call passes the contiguity check and stores `{50, 10, 2}` —
leaving records that are neither ascending nor contiguous. -/
theorem extent_list_overflow_counterexample :
    addSeq ⟨[], 0, 100, -1⟩ [(0, 18446744073709551615, 1), (50, 10, 2)] =
      some ⟨[⟨0, 100, 1⟩, ⟨50, 10, 2⟩], 0, 100, 60⟩ ∧
    ((⟨[⟨0, 100, 1⟩, ⟨50, 10, 2⟩], 0, 100, 60⟩ : NbdExtents).records.get
        ⟨1, by decide⟩).offset ≠
      ((⟨[⟨0, 100, 1⟩, ⟨50, 10, 2⟩], 0, 100, 60⟩ : NbdExtents).records.get
        ⟨0, by decide⟩).offset +
      ((⟨[⟨0, 100, 1⟩, ⟨50, 10, 2⟩], 0, 100, 60⟩ : NbdExtents).records.get
        ⟨0, by decide⟩).length := by
  exact ⟨by decide, by decide⟩

/-- Helper: a call that fails the contiguity check returns -1 with
`ERANGE` and leaves the extent list (in particular `next`) unchanged. -/
theorem nbdkit_add_extent_contiguity_fail (exts : NbdExtents) (o l t : ℕ)
    (h0 : 0 ≤ exts.next) (hne : exts.next ≠ (o : Int)) :
    nbdkit_add_extent exts o l t = ⟨-1, ERANGE, exts⟩ := by
  unfold nbdkit_add_extent
  rw [if_pos ⟨h0, hne⟩]

/-- Helper: a call that passes the contiguity check advances `next` to
`offset + length` (as an `int64_t`), whatever else it does. -/
theorem nbdkit_add_extent_next (exts : NbdExtents) (o l t : ℕ)
    (h : ¬(0 ≤ exts.next ∧ exts.next ≠ (o : Int))) :
    (nbdkit_add_extent exts o l t).exts.next = toInt64 (o + l) := by
  unfold nbdkit_add_extent
  rw [if_neg h]
  split_ifs <;> try rfl
  rcases hgl : exts.records.getLast? with _ | last <;> simp [hgl] <;> split_ifs <;> rfl

/-- C5 (amended): on a list whose `next` cursor is set (≥ 0), a call with
`offset ≠ next` fails with errno `ERANGE` leaving the list — including
`next` — unchanged; every call that passes the contiguity check (even one
whose record is dropped, clipped, or that fails the first-record
placement check) advances `next` to `offset + length`; in particular
adding `(offset, len, t)` and then `(offset + len + 1, …)` fails with
`ERANGE`. -/
theorem add_extent_contiguity (exts : NbdExtents) (o l t l2 t2 : ℕ) :
    (0 ≤ exts.next → exts.next ≠ (o : Int) →
      nbdkit_add_extent exts o l t = ⟨-1, ERANGE, exts⟩) ∧
    (¬(0 ≤ exts.next ∧ exts.next ≠ (o : Int)) →
      (nbdkit_add_extent exts o l t).exts.next = toInt64 (o + l)) ∧
    (¬(0 ≤ exts.next ∧ exts.next ≠ (o : Int)) → o + l ≤ 9223372036854775807 →
      nbdkit_add_extent (nbdkit_add_extent exts o l t).exts (o + l + 1) l2 t2 =
        ⟨-1, ERANGE, (nbdkit_add_extent exts o l t).exts⟩) := by
  refine ⟨fun h0 hne => nbdkit_add_extent_contiguity_fail exts o l t h0 hne,
    fun h => nbdkit_add_extent_next exts o l t h, fun h hle => ?_⟩
  have hnext : (nbdkit_add_extent exts o l t).exts.next = ((o + l : ℕ) : Int) := by
    rw [nbdkit_add_extent_next exts o l t h, toInt64_small _ hle]
  apply nbdkit_add_extent_contiguity_fail
  · rw [hnext]
    exact Int.ofNat_nonneg _
  · rw [hnext]
    intro hc
    have : o + l = o + l + 1 := by exact_mod_cast hc
    omega

/-- Witness for C5 on range `[0, 100)`: after adding `(0, 10, 1)` the
cursor is 10; adding `(20, 5, 1)` fails with `ERANGE`, and adding
`(11, 5, 1)` after `(0, 10, 1)` likewise fails. -/
theorem add_extent_contiguity_witness :
    nbdkit_add_extent (nbdkit_add_extent ⟨[], 0, 100, -1⟩ 0 10 1).exts 20 5 1 =
      ⟨-1, ERANGE, (nbdkit_add_extent ⟨[], 0, 100, -1⟩ 0 10 1).exts⟩ ∧
    nbdkit_add_extent (nbdkit_add_extent ⟨[], 0, 100, -1⟩ 0 10 1).exts 11 5 1 =
      ⟨-1, ERANGE, (nbdkit_add_extent ⟨[], 0, 100, -1⟩ 0 10 1).exts⟩ :=
  ⟨(add_extent_contiguity (nbdkit_add_extent ⟨[], 0, 100, -1⟩ 0 10 1).exts 20 5 1 0 0).1
      (by decide) (by decide),
   (add_extent_contiguity ⟨[], 0, 100, -1⟩ 0 10 1 5 1).2.2 (by decide) (by decide)⟩

/-- C5 counterexample: `next` is *not* advanced by a call that fails the
contiguity check, contradicting "`next` is advanced to `offset + length`
unconditionally on every call": after `(0, 10, 1)` on `[0, 100)`, the
failing call `(20, 5, 1)` leaves `next = 10` instead of advancing it
to 25. -/
theorem add_extent_failed_call_does_not_advance_counterexample :
    (nbdkit_add_extent (nbdkit_add_extent ⟨[], 0, 100, -1⟩ 0 10 1).exts 20 5 1).r = -1 ∧
    (nbdkit_add_extent (nbdkit_add_extent ⟨[], 0, 100, -1⟩ 0 10 1).exts 20 5 1).errno
      = ERANGE ∧
    (nbdkit_add_extent (nbdkit_add_extent ⟨[], 0, 100, -1⟩ 0 10 1).exts 20 5 1).exts.next
      = 10 ∧
    (nbdkit_add_extent (nbdkit_add_extent ⟨[], 0, 100, -1⟩ 0 10 1).exts 20 5 1).exts.next
      ≠ 25 := by
  refine ⟨by decide, by decide, by decide, by decide⟩

/-- Helper: the emulation read list is empty once `count` is exhausted. -/
theorem cacheReadsAux_zero (M fuel offset : ℕ) :
    cacheReadsAux M fuel 0 offset = [] := by
  cases fuel <;> rfl

/-- Helper: the emulation loop returns 0 once `count` is exhausted. -/
theorem cacheLoopAux_zero (c : Context) (pread : ℕ → ℕ → Int × ℕ)
    (M fuel offset flags : ℕ) :
    cacheLoopAux c pread M fuel 0 offset flags = some 0 := by
  cases fuel <;> rfl

/-- C1 (amended): for a context with `can_cache == EMULATE` and a valid
request whose `count` is at most `MAX_REQUEST_SIZE`, `backend_cache`
issues exactly one pread, of size `count` at `offset` — so the
concatenated pread ranges equal `[offset, offset + count)` and each pread
is no larger than the max request size — and returns 0 when every pread
succeeds.  (For `count` beyond `MAX_REQUEST_SIZE` the loop never advances
`offset`, so the ranges do not tile the request; see the
counterexample.) -/
theorem backend_cache_emulation (c : Context) (pread : ℕ → ℕ → Int × ℕ)
    (cacheCb : ℕ → ℕ → Int × ℕ) (M count offset : ℕ)
    (hh : c.handle = true) (hcon : c.stateConnected = true)
    (hcc : c.can_cache = NBDKIT_CACHE_EMULATE)
    (hsz : c.exportsize ≤ INT64_MAX)
    (h0 : 0 < count) (hcm : count ≤ M)
    (hoc : ((offset + count : ℕ) : Int) ≤ c.exportsize)
    (hok : ∀ n o, (pread n o).1 ≠ -1) :
    backend_cache c pread cacheCb M count offset 0 = some ⟨0, false⟩ ∧
    cacheEmulateReads M count offset = [(offset, count)] ∧
    (∀ p ∈ cacheEmulateReads M count offset, p.2 ≤ M) ∧
    contiguousFrom offset (cacheEmulateReads M count offset) = some (offset + count) := by
  have hM : M ≠ 0 := by omega
  have h1 : ((offset + count : ℕ) : Int) ≤ INT64_MAX := le_trans hoc hsz
  have h1n : offset + count ≤ 9223372036854775807 := by
    simp only [INT64_MAX] at h1
    exact_mod_cast h1
  have hmod : (offset + count) % UINT64_MOD = offset + count := by
    apply Nat.mod_eq_of_lt
    simp only [UINT64_MOD]
    omega
  have ho : (offset : Int) ≤ c.exportsize := by
    refine le_trans ?_ hoc
    exact_mod_cast Nat.le_add_right offset count
  have hmin : min count M = count := min_eq_left hcm
  have hvr : backend_valid_range c offset count = true := by
    simp only [backend_valid_range, hmod, Bool.and_eq_true, decide_eq_true_eq]
    exact ⟨⟨h0, ho⟩, hoc⟩
  have hreads : cacheEmulateReads M count offset = [(offset, count)] := by
    unfold cacheEmulateReads
    rw [if_neg hM]
    rcases count with _ | k
    · omega
    · unfold cacheReadsAux
      rw [if_neg (by omega), hmin, Nat.sub_self, cacheReadsAux_zero]
  have hpread : backend_pread c pread count offset 0 =
      some ⟨(pread count offset).1, true⟩ := by
    unfold backend_pread
    rw [hh, hcon]
    simp only [Bool.and_self, if_true]
    rw [if_pos (by simp only [Bool.and_eq_true, decide_eq_true_eq]; exact ⟨hsz, hvr⟩),
      if_neg (by simp [hok count offset])]
  have hloop : cacheEmulateLoop c pread M count offset 0 = some 0 := by
    unfold cacheEmulateLoop
    rw [if_neg hM]
    rcases count with _ | k
    · omega
    · unfold cacheLoopAux
      rw [if_neg (by omega), hmin, hpread]
      simp only []
      rw [if_neg (hok _ _), Nat.sub_self, cacheLoopAux_zero]
  refine ⟨?_, hreads, ?_, ?_⟩
  · unfold backend_cache
    rw [hh, hcon]
    simp only [Bool.and_self, if_true]
    rw [if_pos (by rw [hcc]; decide),
      if_pos (by simp only [Bool.and_eq_true, decide_eq_true_eq]; exact ⟨hsz, hvr⟩),
      if_pos hcc, hloop]
  · rw [hreads]
    intro p hp
    simp only [List.mem_singleton] at hp
    subst hp
    exact hcm
  · rw [hreads]
    unfold contiguousFrom
    rw [if_pos rfl]
    rfl

/-- Witness for C1: a cache of `(count=8, offset=4)` on a context of size
16 with `can_cache = EMULATE` issues the single pread `(4, 8)` and
returns 0. -/
theorem backend_cache_emulation_witness :
    backend_cache ⟨true, true, true, false, 16, -1, -1, -1, -1, -1, -1, -1, -1, -1, 1⟩
      (fun _ _ => (0, 0)) (fun _ _ => (0, 0)) MAX_REQUEST_SIZE 8 4 0 = some ⟨0, false⟩ ∧
    cacheEmulateReads MAX_REQUEST_SIZE 8 4 = [(4, 8)] ∧
    (∀ p ∈ cacheEmulateReads MAX_REQUEST_SIZE 8 4, p.2 ≤ MAX_REQUEST_SIZE) ∧
    contiguousFrom 4 (cacheEmulateReads MAX_REQUEST_SIZE 8 4) = some (4 + 8) :=
  backend_cache_emulation
    ⟨true, true, true, false, 16, -1, -1, -1, -1, -1, -1, -1, -1, -1, 1⟩
    (fun _ _ => (0, 0)) (fun _ _ => (0, 0)) MAX_REQUEST_SIZE 8 4
    rfl rfl rfl (by decide) (by decide) (by decide) (by decide)
    (fun _ _ => by simp)

/-- C1 counterexample: for a valid request with
`count = MAX_REQUEST_SIZE + 1`, the emulation loop issues the preads
`(offset, MAX_REQUEST_SIZE)` and `(offset, 1)` — both at the same
`offset`, which the loop never advances — so the concatenated ranges do
not equal `[offset, offset + count)`, although `backend_cache` still
returns 0. -/
theorem backend_cache_offset_not_advanced_counterexample :
    backend_cache ⟨true, true, true, false, 134217729, -1, -1, -1, -1, -1, -1, -1, -1, -1, 1⟩
      (fun _ _ => (0, 0)) (fun _ _ => (0, 0)) MAX_REQUEST_SIZE (MAX_REQUEST_SIZE + 1) 0 0
      = some ⟨0, false⟩ ∧
    cacheEmulateReads MAX_REQUEST_SIZE (MAX_REQUEST_SIZE + 1) 0 =
      [(0, MAX_REQUEST_SIZE), (0, 1)] ∧
    contiguousFrom 0 (cacheEmulateReads MAX_REQUEST_SIZE (MAX_REQUEST_SIZE + 1) 0)
      = none := by
  exact ⟨by decide, by decide, by decide⟩

/-- C7 (amended): once the FAILED flag is set, `backend_finalize` returns
-1 immediately — invoking no `.finalize` callback of any layer and
leaving the chain unchanged.  The data-path wrappers, however, do not
check FAILED: a call on a FAILED context that still has a handle and the
CONNECTED flag (which finalize does not clear) passes every assert and is
dispatched to the layer, as `backend_pread` shows. -/
theorem failed_context_finalize_and_datapath
    (l : FinLayer) (rest : List FinLayer) (c : Context) (pread : ℕ → ℕ → Int × ℕ)
    (count offset : ℕ)
    (hf : l.ctx.stateFailed = true)
    (hcf : c.stateFailed = true) (hh : c.handle = true) (hcon : c.stateConnected = true)
    (hsz : c.exportsize ≤ INT64_MAX)
    (hvr : backend_valid_range c offset count = true)
    (hok : ¬((pread count offset).1 = -1 ∧ (pread count offset).2 = 0)) :
    backend_finalize (l :: rest) = some (-1, l :: rest, false) ∧
    backend_pread c pread count offset 0 = some ⟨(pread count offset).1, true⟩ := by
  constructor
  · unfold backend_finalize
    rw [if_pos hf]
  · unfold backend_pread
    rw [hh, hcon]
    simp only [Bool.and_self, if_true]
    rw [if_pos (by simp only [Bool.and_eq_true, decide_eq_true_eq, hvr]; exact ⟨hsz, trivial⟩),
      if_neg hok]

/-- Witness for C7: a two-layer chain whose outer context is FAILED
finalizes to -1 with no callback invoked, and a pread on a FAILED (but
still OPEN|CONNECTED) context of size 16 is dispatched to the layer. -/
theorem failed_context_finalize_and_datapath_witness :
    backend_finalize
      [⟨0, ⟨true, true, true, true, 16, 1, -1, -1, -1, -1, -1, -1, -1, -1, -1⟩⟩,
       ⟨0, ⟨true, true, true, false, 16, 1, -1, -1, -1, -1, -1, -1, -1, -1, -1⟩⟩] =
      some (-1,
        [⟨0, ⟨true, true, true, true, 16, 1, -1, -1, -1, -1, -1, -1, -1, -1, -1⟩⟩,
         ⟨0, ⟨true, true, true, false, 16, 1, -1, -1, -1, -1, -1, -1, -1, -1, -1⟩⟩],
        false) ∧
    backend_pread ⟨true, true, true, true, 16, 1, -1, -1, -1, -1, -1, -1, -1, -1, -1⟩
      (fun _ _ => (0, 0)) 8 0 0 = some ⟨0, true⟩ :=
  failed_context_finalize_and_datapath
    ⟨0, ⟨true, true, true, true, 16, 1, -1, -1, -1, -1, -1, -1, -1, -1, -1⟩⟩
    [⟨0, ⟨true, true, true, false, 16, 1, -1, -1, -1, -1, -1, -1, -1, -1, -1⟩⟩]
    ⟨true, true, true, true, 16, 1, -1, -1, -1, -1, -1, -1, -1, -1, -1⟩
    (fun _ _ => (0, 0)) 8 0
    rfl rfl rfl rfl (by decide) (by decide) (by decide)

/-- C7 counterexample: the claim's second half fails on the code — a
data-path call *is* dispatched through a FAILED context.  On a context
with state OPEN|CONNECTED|FAILED (exactly what a failed finalize leaves,
since it never clears CONNECTED) and a valid range, `backend_pread`
passes all asserts and invokes the layer (`called = true`), returning its
result instead of refusing. -/
theorem failed_context_pread_dispatched_counterexample :
    backend_pread ⟨true, true, true, true, 16, -1, -1, -1, -1, -1, -1, -1, -1, -1, -1⟩
      (fun _ _ => (0, 0)) 8 0 0 = some ⟨0, true⟩ := by decide

/-- Helper: `backend_can_write` on a context passing the entry assert. -/
theorem backend_can_write_spec (b : Backend) (c : Context)
    (hg : (c.handle && c.stateConnected) = true) :
    backend_can_write b c =
      if c.can_write = -1 then
        some ⟨b.can_write, { c with can_write := b.can_write }, true⟩
      else some ⟨c.can_write, c, false⟩ := by
  unfold backend_can_write
  rw [if_pos hg]

/-- Helper: `backend_can_zero` on a context passing the entry assert. -/
theorem backend_can_zero_spec (b : Backend) (c : Context)
    (hg : (c.handle && c.stateConnected) = true) :
    backend_can_zero b c =
      if c.can_zero = -1 then
        (if c.can_write = -1 then
          (if b.can_write ≠ 1 then
            some ⟨b.can_write,
              { c with can_write := b.can_write, can_zero := 0 }, true⟩
          else some ⟨b.can_zero,
              { c with can_write := b.can_write, can_zero := b.can_zero }, true⟩)
        else
          (if c.can_write ≠ 1 then
            some ⟨c.can_write, { c with can_zero := 0 }, false⟩
          else some ⟨b.can_zero, { c with can_zero := b.can_zero }, true⟩))
      else some ⟨c.can_zero, c, false⟩ := by
  unfold backend_can_zero
  rw [if_pos hg, backend_can_write_spec b c hg]
  by_cases hz : c.can_zero = -1
  · rw [if_pos hz, if_pos hz]
    by_cases hw : c.can_write = -1
    · rw [if_pos hw]
      simp only []
      rw [if_pos hw]
      split_ifs <;> rfl
    · rw [if_neg hw]
      simp only []
      rw [if_neg hw]
      split_ifs <;> rfl
  · rw [if_neg hz, if_neg hz]

/-- C9: for every capability query (and `get_size`), once a call has
returned a non-error value, the value is cached: calling the same query
again on the resulting context returns the same value, does not change
the context, and does not invoke any layer callback.  For the derived
queries the layer's `can_write`/`can_zero` callbacks are assumed
tri-valued / enum-valued as the layer interface specifies. -/
theorem capability_queries_cached (b : Backend) (c : Context)
    (hbw : b.can_write = -1 ∨ b.can_write = 0 ∨ b.can_write = 1)
    (hcw : c.can_write = -1 ∨ c.can_write = 0 ∨ c.can_write = 1)
    (hbz : b.can_zero = -1 ∨ 0 ≤ b.can_zero)
    (hcz : c.can_zero = -1 ∨ 0 ≤ c.can_zero) :
    (∀ q, backend_can_write b c = some q → q.v ≠ -1 →
      backend_can_write b q.ctx = some ⟨q.v, q.ctx, false⟩) ∧
    (∀ q, backend_can_flush b c = some q → q.v ≠ -1 →
      backend_can_flush b q.ctx = some ⟨q.v, q.ctx, false⟩) ∧
    (∀ q, backend_is_rotational b c = some q → q.v ≠ -1 →
      backend_is_rotational b q.ctx = some ⟨q.v, q.ctx, false⟩) ∧
    (∀ q, backend_can_extents b c = some q → q.v ≠ -1 →
      backend_can_extents b q.ctx = some ⟨q.v, q.ctx, false⟩) ∧
    (∀ q, backend_can_multi_conn b c = some q → q.v ≠ -1 →
      backend_can_multi_conn b q.ctx = some ⟨q.v, q.ctx, false⟩) ∧
    (∀ q, backend_can_cache b c = some q → q.v ≠ -1 →
      backend_can_cache b q.ctx = some ⟨q.v, q.ctx, false⟩) ∧
    (∀ q, backend_get_size b c = some q → q.v ≠ -1 →
      backend_get_size b q.ctx = some ⟨q.v, q.ctx, false⟩) ∧
    (∀ q, backend_can_trim b c = some q → q.v ≠ -1 →
      backend_can_trim b q.ctx = some ⟨q.v, q.ctx, false⟩) ∧
    (∀ q, backend_can_zero b c = some q → q.v ≠ -1 →
      backend_can_zero b q.ctx = some ⟨q.v, q.ctx, false⟩) ∧
    (∀ q, backend_can_fua b c = some q → q.v ≠ -1 →
      backend_can_fua b q.ctx = some ⟨q.v, q.ctx, false⟩) ∧
    (∀ q, backend_can_fast_zero b c = some q → q.v ≠ -1 →
      backend_can_fast_zero b q.ctx = some ⟨q.v, q.ctx, false⟩) := by
  refine ⟨?_, ?_, ?_, ?_, ?_, ?_, ?_, ?_, ?_, ?_, ?_⟩
  · intro q hq hv
    unfold backend_can_write at hq ⊢
    split_ifs at hq with hg hm
    · obtain rfl := (Option.some_inj.mp hq).symm
      simp_all
    · obtain rfl := (Option.some_inj.mp hq).symm
      simp_all
  · intro q hq hv
    unfold backend_can_flush at hq ⊢
    split_ifs at hq with hg hm
    · obtain rfl := (Option.some_inj.mp hq).symm
      simp_all
    · obtain rfl := (Option.some_inj.mp hq).symm
      simp_all
  · intro q hq hv
    unfold backend_is_rotational at hq ⊢
    split_ifs at hq with hg hm
    · obtain rfl := (Option.some_inj.mp hq).symm
      simp_all
    · obtain rfl := (Option.some_inj.mp hq).symm
      simp_all
  · intro q hq hv
    unfold backend_can_extents at hq ⊢
    split_ifs at hq with hg hm
    · obtain rfl := (Option.some_inj.mp hq).symm
      simp_all
    · obtain rfl := (Option.some_inj.mp hq).symm
      simp_all
  · intro q hq hv
    unfold backend_can_multi_conn at hq ⊢
    split_ifs at hq with hg hm
    · obtain rfl := (Option.some_inj.mp hq).symm
      simp_all
    · obtain rfl := (Option.some_inj.mp hq).symm
      simp_all
  · intro q hq hv
    unfold backend_can_cache at hq ⊢
    split_ifs at hq with hg hm
    · obtain rfl := (Option.some_inj.mp hq).symm
      simp_all
    · obtain rfl := (Option.some_inj.mp hq).symm
      simp_all
  · intro q hq hv
    unfold backend_get_size at hq ⊢
    split_ifs at hq with hg hm
    · obtain rfl := (Option.some_inj.mp hq).symm
      simp_all
    · obtain rfl := (Option.some_inj.mp hq).symm
      simp_all
  · intro q hq hv
    unfold backend_can_trim at hq ⊢
    split_ifs at hq with hg hm
    · rw [backend_can_write_spec b c hg] at hq
      by_cases hw : c.can_write = -1
      · rw [if_pos hw] at hq
        simp only [] at hq
        split_ifs at hq with hne
        · obtain rfl := (Option.some_inj.mp hq).symm
          rcases hbw with h | h | h <;> simp_all [NBDKIT_ZERO_NONE, NBDKIT_FUA_NONE, NBDKIT_ZERO_EMULATE]
        · obtain rfl := (Option.some_inj.mp hq).symm
          simp_all
      · rw [if_neg hw] at hq
        simp only [] at hq
        split_ifs at hq with hne
        · obtain rfl := (Option.some_inj.mp hq).symm
          rcases hcw with h | h | h <;> simp_all [NBDKIT_ZERO_NONE, NBDKIT_FUA_NONE, NBDKIT_ZERO_EMULATE]
        · obtain rfl := (Option.some_inj.mp hq).symm
          simp_all
    · obtain rfl := (Option.some_inj.mp hq).symm
      simp_all
  · intro q hq hv
    unfold backend_can_zero at hq ⊢
    split_ifs at hq with hg hm
    · rw [backend_can_write_spec b c hg] at hq
      by_cases hw : c.can_write = -1
      · rw [if_pos hw] at hq
        simp only [] at hq
        split_ifs at hq with hne
        · obtain rfl := (Option.some_inj.mp hq).symm
          rcases hbw with h | h | h <;> simp_all [NBDKIT_ZERO_NONE, NBDKIT_FUA_NONE, NBDKIT_ZERO_EMULATE]
        · obtain rfl := (Option.some_inj.mp hq).symm
          simp_all
      · rw [if_neg hw] at hq
        simp only [] at hq
        split_ifs at hq with hne
        · obtain rfl := (Option.some_inj.mp hq).symm
          rcases hcw with h | h | h <;> simp_all [NBDKIT_ZERO_NONE, NBDKIT_FUA_NONE, NBDKIT_ZERO_EMULATE]
        · obtain rfl := (Option.some_inj.mp hq).symm
          simp_all
    · obtain rfl := (Option.some_inj.mp hq).symm
      simp_all
  · intro q hq hv
    unfold backend_can_fua at hq ⊢
    split_ifs at hq with hg hm
    · rw [backend_can_write_spec b c hg] at hq
      by_cases hw : c.can_write = -1
      · rw [if_pos hw] at hq
        simp only [] at hq
        split_ifs at hq with hne
        · obtain rfl := (Option.some_inj.mp hq).symm
          rcases hbw with h | h | h <;> simp_all [NBDKIT_ZERO_NONE, NBDKIT_FUA_NONE, NBDKIT_ZERO_EMULATE]
        · obtain rfl := (Option.some_inj.mp hq).symm
          simp_all
      · rw [if_neg hw] at hq
        simp only [] at hq
        split_ifs at hq with hne
        · obtain rfl := (Option.some_inj.mp hq).symm
          rcases hcw with h | h | h <;> simp_all [NBDKIT_ZERO_NONE, NBDKIT_FUA_NONE, NBDKIT_ZERO_EMULATE]
        · obtain rfl := (Option.some_inj.mp hq).symm
          simp_all
    · obtain rfl := (Option.some_inj.mp hq).symm
      simp_all
  · intro q hq hv
    unfold backend_can_fast_zero at hq ⊢
    split_ifs at hq with hg hm
    · rw [backend_can_zero_spec b c hg] at hq
      by_cases hz : c.can_zero = -1
      · rw [if_pos hz] at hq
        by_cases hw : c.can_write = -1
        · rw [if_pos hw] at hq
          split_ifs at hq with hne
          · simp only [] at hq
            split_ifs at hq with hlt
            · obtain rfl := (Option.some_inj.mp hq).symm
              rcases hbw with h | h | h <;>
                simp_all [NBDKIT_ZERO_NONE, NBDKIT_FUA_NONE, NBDKIT_ZERO_EMULATE]
            · obtain rfl := (Option.some_inj.mp hq).symm
              rcases hbw with h | h | h <;>
                simp_all [NBDKIT_ZERO_NONE, NBDKIT_FUA_NONE, NBDKIT_ZERO_EMULATE]
          · simp only [] at hq
            split_ifs at hq with hlt
            · obtain rfl := (Option.some_inj.mp hq).symm
              rcases hbz with h | h <;>
                simp_all [NBDKIT_ZERO_EMULATE, NBDKIT_ZERO_NONE, NBDKIT_FUA_NONE] <;>
                omega
            · obtain rfl := (Option.some_inj.mp hq).symm
              simp_all
        · rw [if_neg hw] at hq
          split_ifs at hq with hne
          · simp only [] at hq
            split_ifs at hq with hlt
            · obtain rfl := (Option.some_inj.mp hq).symm
              rcases hcw with h | h | h <;>
                simp_all [NBDKIT_ZERO_EMULATE, NBDKIT_ZERO_NONE, NBDKIT_FUA_NONE]
            · obtain rfl := (Option.some_inj.mp hq).symm
              rcases hcw with h | h | h <;>
                simp_all [NBDKIT_ZERO_EMULATE, NBDKIT_ZERO_NONE, NBDKIT_FUA_NONE]
          · simp only [] at hq
            split_ifs at hq with hlt
            · obtain rfl := (Option.some_inj.mp hq).symm
              rcases hbz with h | h <;>
                simp_all [NBDKIT_ZERO_EMULATE, NBDKIT_ZERO_NONE, NBDKIT_FUA_NONE] <;>
                omega
            · obtain rfl := (Option.some_inj.mp hq).symm
              simp_all
      · rw [if_neg hz] at hq
        simp only [] at hq
        split_ifs at hq with hlt
        · obtain rfl := (Option.some_inj.mp hq).symm
          rcases hcz with h | h <;>
            simp_all [NBDKIT_ZERO_EMULATE, NBDKIT_ZERO_NONE, NBDKIT_FUA_NONE] <;>
            omega
        · obtain rfl := (Option.some_inj.mp hq).symm
          simp_all
    · obtain rfl := (Option.some_inj.mp hq).symm
      simp_all
/-- Witness for C9: with a layer answering `can_write = 1`, the first
query caches 1; the second query returns 1 from the cache without
invoking the callback. -/
theorem capability_queries_cached_witness :
    backend_can_write ⟨1, 1, 0, 1, 2, 1, 2, 1, 1, 2, 1024⟩
      ⟨true, true, true, false, -1, 1, -1, -1, -1, -1, -1, -1, -1, -1, -1⟩ =
      some ⟨1, ⟨true, true, true, false, -1, 1, -1, -1, -1, -1, -1, -1, -1, -1, -1⟩,
        false⟩ :=
  (capability_queries_cached ⟨1, 1, 0, 1, 2, 1, 2, 1, 1, 2, 1024⟩
      ⟨true, true, true, false, -1, -1, -1, -1, -1, -1, -1, -1, -1, -1, -1⟩
      (by decide) (by decide) (by decide) (by decide)).1
    ⟨1, ⟨true, true, true, false, -1, 1, -1, -1, -1, -1, -1, -1, -1, -1, -1⟩, true⟩
    (by decide) (by decide)

/-- C10: when the first query of a derived capability finds its
prerequisite returning -1 (`can_write` for `can_trim` / `can_zero` /
`can_fua`; `can_zero` for `can_fast_zero`), the derived query returns the
error but caches the forced safe value (0 / NONE) while the prerequisite
cache stays unknown; every later query of that derived capability on the
same context therefore returns the forced "no" from the cache without
invoking any layer callback or retrying the prerequisite. -/
theorem prerequisite_error_disables_derived (b : Backend) (c : Context)
    (hh : c.handle = true) (hcon : c.stateConnected = true) :
    (c.can_trim = -1 → c.can_write = -1 → b.can_write = -1 →
      ∀ q, backend_can_trim b c = some q →
        q.v = -1 ∧ q.ctx.can_trim = 0 ∧ q.ctx.can_write = -1 ∧
        backend_can_trim b q.ctx = some ⟨0, q.ctx, false⟩) ∧
    (c.can_zero = -1 → c.can_write = -1 → b.can_write = -1 →
      ∀ q, backend_can_zero b c = some q →
        q.v = -1 ∧ q.ctx.can_zero = 0 ∧ q.ctx.can_write = -1 ∧
        backend_can_zero b q.ctx = some ⟨0, q.ctx, false⟩) ∧
    (c.can_fua = -1 → c.can_write = -1 → b.can_write = -1 →
      ∀ q, backend_can_fua b c = some q →
        q.v = -1 ∧ q.ctx.can_fua = 0 ∧ q.ctx.can_write = -1 ∧
        backend_can_fua b q.ctx = some ⟨0, q.ctx, false⟩) ∧
    (c.can_fast_zero = -1 → c.can_zero = -1 → c.can_write = 1 → b.can_zero = -1 →
      ∀ q, backend_can_fast_zero b c = some q →
        q.v = -1 ∧ q.ctx.can_fast_zero = 0 ∧ q.ctx.can_zero = -1 ∧
        backend_can_fast_zero b q.ctx = some ⟨0, q.ctx, false⟩) := by
  have hg : (c.handle && c.stateConnected) = true := by
    rw [hh, hcon]
    rfl
  refine ⟨?_, ?_, ?_, ?_⟩
  · intro h1 h2 h3 q hq
    unfold backend_can_trim at hq
    rw [if_pos hg, if_pos h1, backend_can_write_spec b c hg, if_pos h2] at hq
    simp only [] at hq
    rw [if_pos (by rw [h3]; decide)] at hq
    obtain rfl := (Option.some_inj.mp hq).symm
    refine ⟨h3, rfl, h3, ?_⟩
    unfold backend_can_trim
    simp only []
    rw [if_pos hg, if_neg (by decide)]
  · intro h1 h2 h3 q hq
    unfold backend_can_zero at hq
    rw [if_pos hg, if_pos h1, backend_can_write_spec b c hg, if_pos h2] at hq
    simp only [] at hq
    rw [if_pos (by rw [h3]; decide)] at hq
    obtain rfl := (Option.some_inj.mp hq).symm
    refine ⟨h3, rfl, h3, ?_⟩
    unfold backend_can_zero
    simp only []
    rw [if_pos hg, if_neg (by decide)]
    rfl
  · intro h1 h2 h3 q hq
    unfold backend_can_fua at hq
    rw [if_pos hg, if_pos h1, backend_can_write_spec b c hg, if_pos h2] at hq
    simp only [] at hq
    rw [if_pos (by rw [h3]; decide)] at hq
    obtain rfl := (Option.some_inj.mp hq).symm
    refine ⟨h3, rfl, h3, ?_⟩
    unfold backend_can_fua
    simp only []
    rw [if_pos hg, if_neg (by decide)]
    rfl
  · intro h1 h2 h3 h4 q hq
    unfold backend_can_fast_zero at hq
    rw [if_pos hg, if_pos h1, backend_can_zero_spec b c hg, if_pos h2,
      if_neg (by rw [h3]; decide), if_neg (by rw [h3]; decide)] at hq
    simp only [] at hq
    rw [if_pos (by rw [h4]; decide)] at hq
    obtain rfl := (Option.some_inj.mp hq).symm
    refine ⟨h4, rfl, h4, ?_⟩
    unfold backend_can_fast_zero
    simp only []
    rw [if_pos hg, if_neg (by decide)]

/-- Witness for C10: a layer whose `can_write` callback errors (-1) makes
the first `can_trim` query return -1 while caching `can_trim = 0`; the
second query returns 0 with no callback invoked.  Likewise a `can_zero`
callback error permanently disables `can_fast_zero`. -/
theorem prerequisite_error_disables_derived_witness :
    ((⟨-1, ⟨true, true, true, false, -1, -1, -1, -1, 0, -1, -1, -1, -1, -1, -1⟩,
        true⟩ : QRes).v = -1 ∧
      (⟨-1, ⟨true, true, true, false, -1, -1, -1, -1, 0, -1, -1, -1, -1, -1, -1⟩,
        true⟩ : QRes).ctx.can_trim = 0 ∧
      (⟨-1, ⟨true, true, true, false, -1, -1, -1, -1, 0, -1, -1, -1, -1, -1, -1⟩,
        true⟩ : QRes).ctx.can_write = -1 ∧
      backend_can_trim ⟨-1, 1, 1, 1, 1, 1, 1, 1, 1, 1, 16⟩
        (⟨-1, ⟨true, true, true, false, -1, -1, -1, -1, 0, -1, -1, -1, -1, -1, -1⟩,
          true⟩ : QRes).ctx =
        some ⟨0, (⟨-1, ⟨true, true, true, false, -1, -1, -1, -1, 0, -1, -1, -1, -1,
          -1, -1⟩, true⟩ : QRes).ctx, false⟩) ∧
    ((⟨-1, ⟨true, true, true, false, -1, 1, -1, -1, -1, -1, 0, -1, -1, -1, -1⟩,
        true⟩ : QRes).v = -1 ∧
      (⟨-1, ⟨true, true, true, false, -1, 1, -1, -1, -1, -1, 0, -1, -1, -1, -1⟩,
        true⟩ : QRes).ctx.can_fast_zero = 0 ∧
      (⟨-1, ⟨true, true, true, false, -1, 1, -1, -1, -1, -1, 0, -1, -1, -1, -1⟩,
        true⟩ : QRes).ctx.can_zero = -1 ∧
      backend_can_fast_zero ⟨1, 1, 1, 1, -1, 1, 1, 1, 1, 1, 16⟩
        (⟨-1, ⟨true, true, true, false, -1, 1, -1, -1, -1, -1, 0, -1, -1, -1, -1⟩,
          true⟩ : QRes).ctx =
        some ⟨0, (⟨-1, ⟨true, true, true, false, -1, 1, -1, -1, -1, -1, 0, -1, -1,
          -1, -1⟩, true⟩ : QRes).ctx, false⟩) :=
  ⟨(prerequisite_error_disables_derived ⟨-1, 1, 1, 1, 1, 1, 1, 1, 1, 1, 16⟩
      ⟨true, true, true, false, -1, -1, -1, -1, -1, -1, -1, -1, -1, -1, -1⟩
      rfl rfl).1 rfl rfl rfl
    ⟨-1, ⟨true, true, true, false, -1, -1, -1, -1, 0, -1, -1, -1, -1, -1, -1⟩, true⟩
    (by decide),
   (prerequisite_error_disables_derived ⟨1, 1, 1, 1, -1, 1, 1, 1, 1, 1, 16⟩
      ⟨true, true, true, false, -1, 1, -1, -1, -1, -1, -1, -1, -1, -1, -1⟩
      rfl rfl).2.2.2 rfl rfl rfl rfl
    ⟨-1, ⟨true, true, true, false, -1, 1, -1, -1, -1, -1, 0, -1, -1, -1, -1⟩, true⟩
    (by decide)⟩

/-- Helper: every capability query preserves the coupling invariant,
whatever the layer's `can_trim` / `can_zero` / `can_fua` /
`can_fast_zero` callbacks return, provided only that the layer's
`can_write` callback is tri-valued. -/
theorem couplingInv_step (b : Backend)
    (hbw : b.can_write = -1 ∨ b.can_write = 0 ∨ b.can_write = 1)
    {c c' : Context} (hs : QStep b c c') (hinv : CouplingInv c) : CouplingInv c' := by
  cases hs with
  | can_write q h =>
    unfold backend_can_write at h
    split_ifs at h with hg hm <;>
      · obtain rfl := (Option.some_inj.mp h).symm
        unfold CouplingInv at hinv ⊢
        simp only [] at hinv ⊢
        omega
  | can_flush q h =>
    unfold backend_can_flush at h
    split_ifs at h with hg hm <;>
      · obtain rfl := (Option.some_inj.mp h).symm
        unfold CouplingInv at hinv ⊢
        simp only [] at hinv ⊢
        omega
  | is_rotational q h =>
    unfold backend_is_rotational at h
    split_ifs at h with hg hm <;>
      · obtain rfl := (Option.some_inj.mp h).symm
        unfold CouplingInv at hinv ⊢
        simp only [] at hinv ⊢
        omega
  | can_extents q h =>
    unfold backend_can_extents at h
    split_ifs at h with hg hm <;>
      · obtain rfl := (Option.some_inj.mp h).symm
        unfold CouplingInv at hinv ⊢
        simp only [] at hinv ⊢
        omega
  | can_multi_conn q h =>
    unfold backend_can_multi_conn at h
    split_ifs at h with hg hm <;>
      · obtain rfl := (Option.some_inj.mp h).symm
        unfold CouplingInv at hinv ⊢
        simp only [] at hinv ⊢
        omega
  | can_cache q h =>
    unfold backend_can_cache at h
    split_ifs at h with hg hm <;>
      · obtain rfl := (Option.some_inj.mp h).symm
        unfold CouplingInv at hinv ⊢
        simp only [] at hinv ⊢
        omega
  | get_size q h =>
    unfold backend_get_size at h
    split_ifs at h with hg hm <;>
      · obtain rfl := (Option.some_inj.mp h).symm
        unfold CouplingInv at hinv ⊢
        simp only [] at hinv ⊢
        omega
  | can_trim q h =>
    unfold backend_can_trim at h
    split_ifs at h with hg hm
    · rw [backend_can_write_spec b c hg] at h
      by_cases hw : c.can_write = -1
      · rw [if_pos hw] at h
        simp only [] at h
        split_ifs at h with hne
        · obtain rfl := (Option.some_inj.mp h).symm
          unfold CouplingInv at hinv ⊢
          simp only [] at hinv ⊢
          refine ⟨?_, ?_, ?_, ?_, ?_⟩ <;> first | omega | simp
        · obtain rfl := (Option.some_inj.mp h).symm
          unfold CouplingInv at hinv ⊢
          simp only [] at hinv ⊢
          refine ⟨?_, ?_, ?_, ?_, ?_⟩ <;> first | omega | simp
      · rw [if_neg hw] at h
        simp only [] at h
        split_ifs at h with hne
        · obtain rfl := (Option.some_inj.mp h).symm
          unfold CouplingInv at hinv ⊢
          simp only [] at hinv ⊢
          refine ⟨?_, ?_, ?_, ?_, ?_⟩ <;> first | omega | simp
        · obtain rfl := (Option.some_inj.mp h).symm
          unfold CouplingInv at hinv ⊢
          simp only [] at hinv ⊢
          refine ⟨?_, ?_, ?_, ?_, ?_⟩ <;> first | omega | simp
    · obtain rfl := (Option.some_inj.mp h).symm
      exact hinv
  | can_zero q h =>
    unfold backend_can_zero at h
    split_ifs at h with hg hm
    · rw [backend_can_write_spec b c hg] at h
      by_cases hw : c.can_write = -1
      · rw [if_pos hw] at h
        simp only [] at h
        split_ifs at h with hne
        · obtain rfl := (Option.some_inj.mp h).symm
          unfold CouplingInv at hinv ⊢
          simp only [NBDKIT_ZERO_NONE] at hinv ⊢
          refine ⟨?_, ?_, ?_, ?_, ?_⟩ <;> first | omega | simp
        · obtain rfl := (Option.some_inj.mp h).symm
          unfold CouplingInv at hinv ⊢
          simp only [] at hinv ⊢
          refine ⟨?_, ?_, ?_, ?_, ?_⟩ <;> first | omega | simp
      · rw [if_neg hw] at h
        simp only [] at h
        split_ifs at h with hne
        · obtain rfl := (Option.some_inj.mp h).symm
          unfold CouplingInv at hinv ⊢
          simp only [NBDKIT_ZERO_NONE] at hinv ⊢
          refine ⟨?_, ?_, ?_, ?_, ?_⟩ <;> first | omega | simp
        · obtain rfl := (Option.some_inj.mp h).symm
          unfold CouplingInv at hinv ⊢
          simp only [] at hinv ⊢
          refine ⟨?_, ?_, ?_, ?_, ?_⟩ <;> first | omega | simp
    · obtain rfl := (Option.some_inj.mp h).symm
      exact hinv
  | can_fua q h =>
    unfold backend_can_fua at h
    split_ifs at h with hg hm
    · rw [backend_can_write_spec b c hg] at h
      by_cases hw : c.can_write = -1
      · rw [if_pos hw] at h
        simp only [] at h
        split_ifs at h with hne
        · obtain rfl := (Option.some_inj.mp h).symm
          unfold CouplingInv at hinv ⊢
          simp only [NBDKIT_FUA_NONE] at hinv ⊢
          refine ⟨?_, ?_, ?_, ?_, ?_⟩ <;> first | omega | simp
        · obtain rfl := (Option.some_inj.mp h).symm
          unfold CouplingInv at hinv ⊢
          simp only [] at hinv ⊢
          refine ⟨?_, ?_, ?_, ?_, ?_⟩ <;> first | omega | simp
      · rw [if_neg hw] at h
        simp only [] at h
        split_ifs at h with hne
        · obtain rfl := (Option.some_inj.mp h).symm
          unfold CouplingInv at hinv ⊢
          simp only [NBDKIT_FUA_NONE] at hinv ⊢
          refine ⟨?_, ?_, ?_, ?_, ?_⟩ <;> first | omega | simp
        · obtain rfl := (Option.some_inj.mp h).symm
          unfold CouplingInv at hinv ⊢
          simp only [] at hinv ⊢
          refine ⟨?_, ?_, ?_, ?_, ?_⟩ <;> first | omega | simp
    · obtain rfl := (Option.some_inj.mp h).symm
      exact hinv
  | can_fast_zero q h =>
    unfold backend_can_fast_zero at h
    split_ifs at h with hg hm
    · rw [backend_can_zero_spec b c hg] at h
      by_cases hz : c.can_zero = -1
      · rw [if_pos hz] at h
        by_cases hw : c.can_write = -1
        · rw [if_pos hw] at h
          split_ifs at h with hne
          · simp only [] at h
            split_ifs at h with hlt
            · obtain rfl := (Option.some_inj.mp h).symm
              unfold CouplingInv at hinv ⊢
              simp only [NBDKIT_ZERO_EMULATE] at hlt
              simp only [] at hinv ⊢
              refine ⟨?_, ?_, ?_, ?_, ?_⟩ <;> first | omega | simp
            · obtain rfl := (Option.some_inj.mp h).symm
              unfold CouplingInv at hinv ⊢
              simp only [NBDKIT_ZERO_EMULATE] at hlt
              simp only [] at hinv ⊢
              refine ⟨?_, ?_, ?_, ?_, ?_⟩ <;> first | omega | simp
          · simp only [] at h
            split_ifs at h with hlt
            · obtain rfl := (Option.some_inj.mp h).symm
              unfold CouplingInv at hinv ⊢
              simp only [NBDKIT_ZERO_EMULATE] at hlt
              simp only [] at hinv ⊢
              refine ⟨?_, ?_, ?_, ?_, ?_⟩ <;> first | omega | simp
            · obtain rfl := (Option.some_inj.mp h).symm
              unfold CouplingInv at hinv ⊢
              simp only [NBDKIT_ZERO_EMULATE] at hlt
              simp only [] at hinv ⊢
              refine ⟨?_, ?_, ?_, ?_, ?_⟩ <;> first | omega | simp
        · rw [if_neg hw] at h
          split_ifs at h with hne
          · simp only [] at h
            split_ifs at h with hlt
            · obtain rfl := (Option.some_inj.mp h).symm
              unfold CouplingInv at hinv ⊢
              simp only [NBDKIT_ZERO_EMULATE] at hlt
              simp only [] at hinv ⊢
              refine ⟨?_, ?_, ?_, ?_, ?_⟩ <;> first | omega | simp
            · obtain rfl := (Option.some_inj.mp h).symm
              unfold CouplingInv at hinv ⊢
              simp only [NBDKIT_ZERO_EMULATE] at hlt
              simp only [] at hinv ⊢
              refine ⟨?_, ?_, ?_, ?_, ?_⟩ <;> first | omega | simp
          · simp only [] at h
            split_ifs at h with hlt
            · obtain rfl := (Option.some_inj.mp h).symm
              unfold CouplingInv at hinv ⊢
              simp only [NBDKIT_ZERO_EMULATE] at hlt
              simp only [] at hinv ⊢
              refine ⟨?_, ?_, ?_, ?_, ?_⟩ <;> first | omega | simp
            · obtain rfl := (Option.some_inj.mp h).symm
              unfold CouplingInv at hinv ⊢
              simp only [NBDKIT_ZERO_EMULATE] at hlt
              simp only [] at hinv ⊢
              refine ⟨?_, ?_, ?_, ?_, ?_⟩ <;> first | omega | simp
      · rw [if_neg hz] at h
        simp only [] at h
        split_ifs at h with hlt
        · obtain rfl := (Option.some_inj.mp h).symm
          unfold CouplingInv at hinv ⊢
          simp only [NBDKIT_ZERO_EMULATE] at hlt
          simp only [] at hinv ⊢
          refine ⟨?_, ?_, ?_, ?_, ?_⟩ <;> first | omega | simp
        · obtain rfl := (Option.some_inj.mp h).symm
          unfold CouplingInv at hinv ⊢
          simp only [NBDKIT_ZERO_EMULATE] at hlt
          simp only [] at hinv ⊢
          refine ⟨?_, ?_, ?_, ?_, ?_⟩ <;> first | omega | simp
    · obtain rfl := (Option.some_inj.mp h).symm
      exact hinv

/-- C3: in every context reachable from `backend_open`'s initialisation
by capability queries (whose layer `can_write` callback is tri-valued as
the interface requires, the other callbacks unconstrained), the settled
capability caches obey the coupling rules: `can_write == 0` forces
`can_trim == 0`, `can_zero == ZERO_NONE` and `can_fua == FUA_NONE`, and
`can_zero < ZERO_EMULATE` forces `can_fast_zero == 0`. -/
theorem capability_coupling (b : Backend) (ro : Bool) (c : Context)
    (hbw : b.can_write = -1 ∨ b.can_write = 0 ∨ b.can_write = 1)
    (hreach : QReach b (initContext ro) c) :
    (c.can_write = 0 →
      (c.can_trim ≠ -1 → c.can_trim = 0) ∧
      (c.can_zero ≠ -1 → c.can_zero = NBDKIT_ZERO_NONE) ∧
      (c.can_fua ≠ -1 → c.can_fua = NBDKIT_FUA_NONE)) ∧
    (c.can_zero ≠ -1 → c.can_zero < NBDKIT_ZERO_EMULATE →
      c.can_fast_zero ≠ -1 → c.can_fast_zero = 0) := by
  have hinv : CouplingInv c := by
    induction hreach with
    | refl =>
      unfold CouplingInv initContext
      cases ro <;> simp
    | step hr hs ih => exact couplingInv_step b hbw hs ih
  unfold CouplingInv at hinv
  simp only [NBDKIT_ZERO_NONE, NBDKIT_FUA_NONE, NBDKIT_ZERO_EMULATE]
  omega

/-- Witness for C3: a readonly context (`can_write` forced 0 at open)
after one `can_trim` query — reachable in one step — has `can_trim = 0`,
and the coupling conclusions hold for it. -/
theorem capability_coupling_witness :
    ((⟨true, true, true, false, -1, 0, -1, -1, 0, -1, -1, -1, -1, -1, -1⟩ :
        Context).can_write = 0 →
      ((⟨true, true, true, false, -1, 0, -1, -1, 0, -1, -1, -1, -1, -1, -1⟩ :
        Context).can_trim ≠ -1 →
       (⟨true, true, true, false, -1, 0, -1, -1, 0, -1, -1, -1, -1, -1, -1⟩ :
        Context).can_trim = 0) ∧
      ((⟨true, true, true, false, -1, 0, -1, -1, 0, -1, -1, -1, -1, -1, -1⟩ :
        Context).can_zero ≠ -1 →
       (⟨true, true, true, false, -1, 0, -1, -1, 0, -1, -1, -1, -1, -1, -1⟩ :
        Context).can_zero = NBDKIT_ZERO_NONE) ∧
      ((⟨true, true, true, false, -1, 0, -1, -1, 0, -1, -1, -1, -1, -1, -1⟩ :
        Context).can_fua ≠ -1 →
       (⟨true, true, true, false, -1, 0, -1, -1, 0, -1, -1, -1, -1, -1, -1⟩ :
        Context).can_fua = NBDKIT_FUA_NONE)) ∧
    ((⟨true, true, true, false, -1, 0, -1, -1, 0, -1, -1, -1, -1, -1, -1⟩ :
        Context).can_zero ≠ -1 →
      (⟨true, true, true, false, -1, 0, -1, -1, 0, -1, -1, -1, -1, -1, -1⟩ :
        Context).can_zero < NBDKIT_ZERO_EMULATE →
      (⟨true, true, true, false, -1, 0, -1, -1, 0, -1, -1, -1, -1, -1, -1⟩ :
        Context).can_fast_zero ≠ -1 →
      (⟨true, true, true, false, -1, 0, -1, -1, 0, -1, -1, -1, -1, -1, -1⟩ :
        Context).can_fast_zero = 0) :=
  capability_coupling ⟨1, 1, 1, 1, 1, 1, 1, 1, 1, 1, 16⟩ true
    ⟨true, true, true, false, -1, 0, -1, -1, 0, -1, -1, -1, -1, -1, -1⟩
    (by decide)
    (QReach.step (QReach.refl _)
      (QStep.can_trim (initContext true)
        ⟨0, ⟨true, true, true, false, -1, 0, -1, -1, 0, -1, -1, -1, -1, -1, -1⟩, false⟩
        (by decide)))

/-- Helper: `ROUND_DOWN` yields a multiple of the alignment. -/
theorem roundDown_mod (x a : ℕ) : roundDown x a % a = 0 := by
  unfold roundDown
  rcases Nat.eq_zero_or_pos a with h | h
  · subst h
    simp
  · have h2 : x - x % a = a * (x / a) := by
      have := Nat.div_add_mod x a
      omega
    rw [h2]
    exact Nat.mul_mod_right a _

/-- Helper: a successful run of the merge loop of
`nbdkit_extents_aligned` always produces exactly one record of length
`align`. -/
theorem mergeLoop_success (F : ℕ → ℕ → ℕ → NbdExtents → Int × ℕ × NbdExtents)
    (offset flags align : ℕ) (ex : NbdExtents) :
    ∀ fuel e rest err out,
      mergeLoop F offset flags align ex e rest fuel = some (0, err, out) →
      ∃ o t, out.records = [⟨o, align, t⟩] := by
  intro fuel
  induction fuel with
  | zero =>
    intro e rest err out h
    simp [mergeLoop] at h
  | succ n ih =>
    intro e rest err out h
    unfold mergeLoop at h
    split_ifs at h with hlen
    · rcases rest with _ | ⟨e1, rest'⟩
      · cases hnew : nbdkit_extents_new (e.offset + e.length) (offset + align) with
        | none =>
          rw [hnew] at h
          simp at h
        | some ex2 =>
          rw [hnew] at h
          simp only [] at h
          split_ifs at h with hr
          · simp at h
          · rcases hrecs :
                (F (align - e.length) (offset + e.length) (clearReqOne flags) ex2).2.2.records
                with _ | ⟨e2, rest2⟩
            · rw [hrecs] at h
              simp at h
            · rw [hrecs] at h
              simp only [] at h
              split_ifs at h with hoff
              · exact ih _ _ _ _ h
      · exact ih _ _ _ _ h
    · simp only [Option.some_inj, Prod.mk.injEq] at h
      obtain ⟨-, -, rfl⟩ := h
      exact ⟨e.offset, e.type, rfl⟩

/-- Helper: a successful `alignScan` leaves only records whose length is
a multiple of `align`, given that the already-scanned prefix `acc` is
aligned and the list's records are `acc ++ rest`. -/
theorem alignScan_aligned (F : ℕ → ℕ → ℕ → NbdExtents → Int × ℕ × NbdExtents)
    (offset flags align : ℕ) :
    ∀ rest acc (ex : NbdExtents) err out,
      (∀ a ∈ acc, a.length % align = 0) →
      ex.records = acc ++ rest →
      alignScan F offset flags align ex acc rest = some (0, err, out) →
      ∀ r ∈ out.records, r.length % align = 0 := by
  intro rest
  induction rest with
  | nil =>
    intro acc ex err out hacc hrec h
    unfold alignScan at h
    simp only [Option.some_inj, Prod.mk.injEq] at h
    obtain ⟨-, -, rfl⟩ := h
    intro r hr
    rw [hrec, List.append_nil] at hr
    exact hacc r hr
  | cons e rest' ih =>
    intro acc ex err out hacc hrec h
    unfold alignScan at h
    split_ifs at h with hal htr hacc0
    · refine ih (acc ++ [e]) ex err out ?_ ?_ h
      · intro a ha
        rcases List.mem_append.mp ha with h' | h'
        · exact hacc a h'
        · simp only [List.mem_singleton] at h'
          subst h'
          simpa [isAligned] using hal
      · rw [hrec, List.append_assoc]
        rfl
    · simp only [Option.some_inj, Prod.mk.injEq] at h
      obtain ⟨-, -, rfl⟩ := h
      intro r hr
      simp only [] at hr
      rcases List.mem_append.mp hr with h' | h'
      · exact hacc r h'
      · split_ifs at h' with hlen0
        · simp at h'
        · simp only [List.mem_singleton] at h'
          subst h'
          exact roundDown_mod _ _
    · obtain ⟨o, t, hrecs⟩ :=
        mergeLoop_success F offset flags align ex (align + 1) e rest' err out h
      intro r hr
      rw [hrecs] at hr
      simp only [List.mem_singleton] at hr
      subst hr
      exact Nat.mod_self align

/-- C6 (amended): whenever `nbdkit_extents_aligned` returns success,
every record of its output list has a length that is a multiple of
`align`.  (The output is not in general a single record: when the
initial inner query already returns only aligned records the function
returns that list unchanged; see the counterexample.) -/
theorem extents_aligned_output_aligned
    (F : ℕ → ℕ → ℕ → NbdExtents → Int × ℕ × NbdExtents)
    (count offset flags align : ℕ) (exts out : NbdExtents) (err : ℕ)
    (h : nbdkit_extents_aligned F count offset flags align exts = some (0, err, out)) :
    ∀ r ∈ out.records, r.length % align = 0 := by
  unfold nbdkit_extents_aligned at h
  split_ifs at h with hentry
  simp only [] at h
  split_ifs at h with hr
  · simp at h
  · exact alignScan_aligned F offset flags align
      (F count offset flags exts).2.2.records [] (F count offset flags exts).2.2 err out
      (by intro a ha; simp at ha) rfl h

/-- Witness for C6 (amended): an inner layer returning the two
512-aligned records `{0,512,1}` and `{512,512,2}` gives a successful
aligned query; its second output record has length a multiple of 512. -/
theorem extents_aligned_output_aligned_witness :
    (⟨512, 512, 2⟩ : NbdExtent).length % 512 = 0 :=
  extents_aligned_output_aligned
    (fun _ _ _ e => (0, 0, { e with records := [⟨0, 512, 1⟩, ⟨512, 512, 2⟩],
                                    next := 1024 }))
    1024 0 0 512 ⟨[], 0, 1024, -1⟩
    ⟨[⟨0, 512, 1⟩, ⟨512, 512, 2⟩], 0, 1024, 1024⟩ 0 (by decide)
    ⟨512, 512, 2⟩ (by decide)

/-- C6 counterexample: with the same inner layer, the successful output
of `nbdkit_extents_aligned` contains two records, not "exactly one
record of length align" as the claim states. -/
theorem extents_aligned_not_single_record_counterexample :
    nbdkit_extents_aligned
      (fun _ _ _ e => (0, 0, { e with records := [⟨0, 512, 1⟩, ⟨512, 512, 2⟩],
                                      next := 1024 }))
      1024 0 0 512 ⟨[], 0, 1024, -1⟩ =
      some (0, 0, ⟨[⟨0, 512, 1⟩, ⟨512, 512, 2⟩], 0, 1024, 1024⟩) ∧
    (⟨[⟨0, 512, 1⟩, ⟨512, 512, 2⟩], 0, 1024, 1024⟩ : NbdExtents).records.length ≠ 1 := by
  exact ⟨by decide, by decide⟩

end Nbdkit
